import Mathlib

namespace FeishuMcp

/-- JavaScript values as they occur in the JSON payloads this program handles:
`null`, booleans, numbers (integer payloads only — the program never computes
with fractional values), strings, arrays and objects with ordered fields. -/
inductive JVal where
  | null
  | bool (b : Bool)
  | num (n : Int)
  | str (s : String)
  | arr (elems : List JVal)
  | obj (fields : List (String × JVal))
deriving Repr

/-- JS truthiness of a value (`Boolean(v)`): `null`, `false`, `0` and `""` are
falsy; every array and object is truthy. -/
def truthyV : JVal → Bool
  | .null => false
  | .bool b => b
  | .num n => n != 0
  | .str s => s != ""
  | .arr _ => true
  | .obj _ => true

/-- JS truthiness of a possibly-undefined value (`undefined` is falsy). -/
def truthy : Option JVal → Bool
  | none => false
  | some v => truthyV v

/-- Keep a possibly-undefined value only when it is truthy; this is the shape
of every `x || d` default in the source. -/
def truthyOpt : Option JVal → Option JVal
  | none => none
  | some v => if truthyV v then some v else none

/-- Decimal digit character for `d < 10`. -/
def digitChar (d : Nat) : Char := Char.ofNat (48 + d)

/-- Decimal digits of a natural number, most significant first, as JS prints
an integral number. -/
def decDigits (n : Nat) : List Char :=
  if _h : n < 10 then [digitChar n]
  else decDigits (n / 10) ++ [digitChar (n % 10)]
decreasing_by exact Nat.div_lt_self (by omega) (by omega)

/-- Decimal rendering of an integer, as JS `String(n)` prints it. -/
def intChars (n : Int) : List Char :=
  if n < 0 then '-' :: decDigits n.natAbs else decDigits n.natAbs

mutual

/-- JS `String(v)` / template-literal coercion: `null` prints as "null",
numbers in decimal, an array as its comma join, an object as
"[object Object]". -/
def jsString : JVal → String
  | .null => "null"
  | .bool b => cond b "true" "false"
  | .num n => String.mk (intChars n)
  | .str s => s
  | .arr xs => jsJoin "," xs
  | .obj _ => "[object Object]"

/-- One element of `Array.prototype.join`: `null` (and `undefined`) become the
empty string, every other value is coerced with `String(v)`. -/
def jsElemStr : JVal → String
  | .null => ""
  | .bool b => cond b "true" "false"
  | .num n => String.mk (intChars n)
  | .str s => s
  | .arr xs => jsJoin "," xs
  | .obj _ => "[object Object]"

/-- JS `arr.join(sep)`. -/
def jsJoin (sep : String) : List JVal → String
  | [] => ""
  | [x] => jsElemStr x
  | x :: y :: xs => jsElemStr x ++ sep ++ jsJoin sep (y :: xs)

end

/-! JSON.stringify. The program calls `JSON.stringify(content, null, 2)` as
its normalization fallback and `JSON.stringify(content)` in the diagnostic
branch; both are modelled character-exactly (per ECMA-262 `SerializeJSON`
with gap "  " resp. no gap), over the integer-numeric value model. -/

/-- Escape of one character inside a JSON string literal, as
`JSON.stringify` emits it: the two-character escapes for quote, backslash
and the five named control characters, `\u00xx` for the remaining control
characters, and every other character unchanged. -/
def escapeChar (c : Char) : List Char :=
  if c = '"' then ['\\', '"']
  else if c = '\\' then ['\\', '\\']
  else if c = '\x08' then ['\\', 'b']
  else if c = '\t' then ['\\', 't']
  else if c = '\n' then ['\\', 'n']
  else if c = '\x0c' then ['\\', 'f']
  else if c = '\r' then ['\\', 'r']
  else if c.toNat < 32 then
    ['\\', 'u', '0', '0',
     (if c.toNat / 16 < 10 then digitChar (c.toNat / 16) else Char.ofNat (87 + c.toNat / 16)),
     (if c.toNat % 16 < 10 then digitChar (c.toNat % 16) else Char.ofNat (87 + c.toNat % 16))]
  else [c]

/-- Escapes of a whole character sequence. -/
def escList : List Char → List Char
  | [] => []
  | c :: cs => escapeChar c ++ escList cs

/-- JSON string literal for `s`, quotes included. -/
def quoteChars (s : String) : List Char := '"' :: (escList s.data ++ ['"'])

/-- Indentation emitted by `JSON.stringify(v, null, 2)` at nesting depth
`ind`. -/
def indentChars (ind : Nat) : List Char := List.replicate (2 * ind) ' '

mutual

/-- Text of `JSON.stringify(v, null, 2)` at nesting depth `ind`, as a
character list. A non-empty array or object opens the bracket, puts every
entry on its own line indented one level deeper, and closes the bracket at
the current level; empty containers print without any whitespace. -/
def stringifyChars : Nat → JVal → List Char
  | _, .null => "null".data
  | _, .bool b => cond b "true".data "false".data
  | _, .num n => intChars n
  | _, .str s => quoteChars s
  | _, .arr [] => ['[', ']']
  | ind, .arr (x :: xs) =>
      '[' :: '\n' :: (stringifyItems (ind + 1) (x :: xs) ++ '\n' :: (indentChars ind ++ [']']))
  | _, .obj [] => ['\x7b', '\x7d']
  | ind, .obj (f :: fs) =>
      '\x7b' :: '\n' :: (stringifyFields (ind + 1) (f :: fs) ++ '\n' :: (indentChars ind ++ ['\x7d']))

/-- Lines of the elements of a non-empty array, separated by ",\n". -/
def stringifyItems : Nat → List JVal → List Char
  | _, [] => []
  | ind, [x] => indentChars ind ++ stringifyChars ind x
  | ind, x :: y :: xs =>
      indentChars ind ++ stringifyChars ind x ++ ',' :: '\n' :: stringifyItems ind (y :: xs)

/-- Lines of the fields of a non-empty object, `"key": value`, separated by
",\n". -/
def stringifyFields : Nat → List (String × JVal) → List Char
  | _, [] => []
  | ind, [(k, v)] => indentChars ind ++ quoteChars k ++ ':' :: ' ' :: stringifyChars ind v
  | ind, (k, v) :: f :: fs =>
      indentChars ind ++ quoteChars k ++ ':' :: ' ' :: stringifyChars ind v
        ++ ',' :: '\n' :: stringifyFields ind (f :: fs)

end

/-- JSON.stringify(v, null, 2): the two-space pretty rendering used by the
normalization fallback. -/
def stringify2 (v : JVal) : String := String.mk (stringifyChars 0 v)

mutual

/-- Text of plain `JSON.stringify(v)` (no gap): entries joined with "," and
fields written `"key":value`, no whitespace anywhere. -/
def stringifyCChars : JVal → List Char
  | .null => "null".data
  | .bool b => cond b "true".data "false".data
  | .num n => intChars n
  | .str s => quoteChars s
  | .arr xs => '[' :: (stringifyCItems xs ++ [']'])
  | .obj fs => '\x7b' :: (stringifyCFields fs ++ ['\x7d'])

/-- Compact array elements, comma separated. -/
def stringifyCItems : List JVal → List Char
  | [] => []
  | [x] => stringifyCChars x
  | x :: y :: xs => stringifyCChars x ++ ',' :: stringifyCItems (y :: xs)

/-- Compact object fields, comma separated. -/
def stringifyCFields : List (String × JVal) → List Char
  | [] => []
  | [(k, v)] => quoteChars k ++ ':' :: stringifyCChars v
  | (k, v) :: f :: fs => quoteChars k ++ ':' :: stringifyCChars v ++ ',' :: stringifyCFields (f :: fs)

end

/-- JSON.stringify(v): compact rendering, used in the diagnostic fallback. -/
def stringifyC (v : JVal) : String := String.mk (stringifyCChars v)

/-! A JSON parser (recursive descent with explicit fuel). The program hands
normalizer input to `JSON.parse`; this parser stands in for it, both for the
parse attempt at the top of `processDocContent` and as the §8 witness that
the stringify fallback round-trips. -/

/-- Whitespace accepted between JSON tokens. -/
def isWsChar (c : Char) : Bool := c = ' ' || c = '\n' || c = '\t' || c = '\r'

/-- Skip leading whitespace. -/
def skipWs : List Char → List Char
  | [] => []
  | c :: cs => if isWsChar c then skipWs cs else c :: cs

/-- Value of a hexadecimal digit, if `c` is one. -/
def hexVal : Char → Option Nat :=
  fun c =>
    if c.toNat ≥ 48 && c.toNat ≤ 57 then some (c.toNat - 48)
    else if c.toNat ≥ 97 && c.toNat ≤ 102 then some (c.toNat - 87)
    else if c.toNat ≥ 65 && c.toNat ≤ 70 then some (c.toNat - 55)
    else none

/-- Decoded character of a two-character escape, if `c` names one. -/
def escCharFor (c : Char) : Option Char :=
  if c = 'n' then some '\n'
  else if c = 't' then some '\t'
  else if c = 'r' then some '\r'
  else if c = 'b' then some '\x08'
  else if c = 'f' then some '\x0c'
  else if c = '"' then some '"'
  else if c = '\\' then some '\\'
  else if c = '/' then some '/'
  else none

mutual

/-- Body of a JSON string literal after the opening quote: the decoded
characters and the input after the closing quote. -/
def parseStrBody : List Char → Option (List Char × List Char)
  | [] => none
  | c :: cs =>
    if c = '"' then some ([], cs)
    else if c = '\\' then parseEsc cs
    else (parseStrBody cs).map (fun p => (c :: p.1, p.2))
termination_by cs => cs.length

/-- One escape sequence after the backslash. -/
def parseEsc : List Char → Option (List Char × List Char)
  | [] => none
  | e :: cs2 =>
    (escCharFor e).elim
      (if e = 'u' then parseUEsc cs2 else none)
      (fun d => (parseStrBody cs2).map (fun p => (d :: p.1, p.2)))
termination_by cs => cs.length

/-- Four hex digits of a `\u` escape, then the rest of the literal. -/
def parseUEsc : List Char → Option (List Char × List Char)
  | h1 :: h2 :: h3 :: h4 :: r =>
    (hexVal h1).bind fun a =>
      (hexVal h2).bind fun b =>
        (hexVal h3).bind fun c2 =>
          (hexVal h4).bind fun d2 =>
            (parseStrBody r).map
              (fun p => (Char.ofNat (((a * 16 + b) * 16 + c2) * 16 + d2) :: p.1, p.2))
  | _ => none
termination_by cs => cs.length

end

/-- Numeric value of a run of leading decimal digits. -/
def natOfDigits (ds : List Char) : Nat :=
  ds.foldl (fun a c => 10 * a + (c.toNat - 48)) 0

/-- Leading unsigned integer literal and the rest of the input. -/
def parseNat : List Char → Option (Nat × List Char) :=
  fun cs =>
    let ds := cs.takeWhile Char.isDigit
    if ds.isEmpty then none
    else some (natOfDigits ds, cs.dropWhile Char.isDigit)

/-- Does the input start with the given character? -/
def headIs (c : Char) : List Char → Bool
  | [] => false
  | x :: _ => x = c

/-- Drop an expected literal character sequence from the front. -/
def dropLit : List Char → List Char → Option (List Char)
  | [], cs => some cs
  | _ :: _, [] => none
  | l :: ls, c :: cs => if c = l then dropLit ls cs else none

mutual

/-- One JSON value from the front of the input (integer numerics), fuelled:
strip leading whitespace, then dispatch on the first character. -/
def parseJVal : Nat → List Char → Option (JVal × List Char)
  | 0, _ => none
  | f + 1, cs => parseJValCore f (skipWs cs)
termination_by f _ => (f, 0)

/-- Dispatch on the first character of whitespace-stripped input. -/
def parseJValCore : Nat → List Char → Option (JVal × List Char)
  | _, [] => none
  | f, c :: r =>
    if c = '"' then (parseStrBody r).map (fun p => (.str (String.mk p.1), p.2))
    else if c = '[' then
      (if headIs ']' (skipWs r) then some (.arr [], (skipWs r).tail)
       else (parseElems f (skipWs r)).map (fun p => (.arr p.1, p.2)))
    else if c = '\x7b' then
      (if headIs '\x7d' (skipWs r) then some (.obj [], (skipWs r).tail)
       else (parseFields f (skipWs r)).map (fun p => (.obj p.1, p.2)))
    else if c = '-' then (parseNat r).map (fun p => (.num (-(p.1 : Int)), p.2))
    else if c.isDigit then (parseNat (c :: r)).map (fun p => (.num ((p.1 : Int)), p.2))
    else if c = 'n' then (dropLit ['u', 'l', 'l'] r).map (fun r2 => (.null, r2))
    else if c = 't' then (dropLit ['r', 'u', 'e'] r).map (fun r2 => (.bool true, r2))
    else if c = 'f' then (dropLit ['a', 'l', 's', 'e'] r).map (fun r2 => (.bool false, r2))
    else none
termination_by f _ => (f, 1)

/-- Non-empty array tail: elements separated by "," up to "]". -/
def parseElems : Nat → List Char → Option (List JVal × List Char)
  | 0, _ => none
  | f + 1, cs =>
    (parseJVal f cs).bind fun vr =>
      if headIs ',' (skipWs vr.2) then
        (parseElems f (skipWs vr.2).tail).map (fun p => (vr.1 :: p.1, p.2))
      else if headIs ']' (skipWs vr.2) then some ([vr.1], (skipWs vr.2).tail)
      else none
termination_by f _ => (f, 0)

/-- Non-empty object tail: `"key": value` fields separated by "," up to
a closing brace. -/
def parseFields : Nat → List Char → Option (List (String × JVal) × List Char)
  | 0, _ => none
  | f + 1, cs =>
    if headIs '"' cs then
      (parseStrBody cs.tail).bind fun kr =>
        if headIs ':' (skipWs kr.2) then
          (parseJVal f (skipWs kr.2).tail).bind fun vr =>
            if headIs ',' (skipWs vr.2) then
              (parseFields f (skipWs (skipWs vr.2).tail)).map
                (fun p => ((String.mk kr.1, vr.1) :: p.1, p.2))
            else if headIs '\x7d' (skipWs vr.2) then
              some ([(String.mk kr.1, vr.1)], (skipWs vr.2).tail)
            else none
        else none
    else none
termination_by f _ => (f, 0)

end

/-- JSON.parse model: parse one value, insist nothing but whitespace
follows. -/
def jsonParse (s : String) : Option JVal :=
  match parseJVal (s.data.length + 1) s.data with
  | some (v, rest) => if (skipWs rest).isEmpty then some v else none
  | none => none

/-! Fuel accounting for the parser: enough fuel to read a value is one unit
per `parseJVal` / `parseElems` / `parseFields` activation its text costs. -/

mutual

/-- Fuel needed by `parseJVal` for the printed form of `v`. -/
def jsizeV : JVal → Nat
  | .null => 1
  | .bool _ => 1
  | .num _ => 1
  | .str _ => 1
  | .arr [] => 1
  | .arr (x :: xs) => 1 + jsizeL (x :: xs)
  | .obj [] => 1
  | .obj (f :: fs) => 1 + jsizeF (f :: fs)

/-- Fuel needed by `parseElems` for a non-empty element list. -/
def jsizeL : List JVal → Nat
  | [] => 0
  | x :: xs => 1 + jsizeV x + jsizeL xs

/-- Fuel needed by `parseFields` for a non-empty field list. -/
def jsizeF : List (String × JVal) → Nat
  | [] => 0
  | (_, v) :: fs => 1 + jsizeV v + jsizeF fs

end

/-- The input may directly follow a printed number: empty, or starting with a
non-digit. -/
def numSafe : List Char → Bool
  | [] => true
  | c :: _ => !c.isDigit

/-- Only whitespace characters. -/
def allWs (l : List Char) : Prop := ∀ c ∈ l, isWsChar c = true

/-- Characters that can open the printed form of a value: not whitespace and
not a closing bracket, so the parser neither skips them nor mistakes them for
the end of a container. -/
def goodHead (c : Char) : Bool :=
  !isWsChar c && !(c = ']' : Bool) && !(c = '\x7d' : Bool)

/-! The content normalizer: `DocConverter.processDocContent` (converter, lines
37-107). The whole body sits in a try/catch whose catch returns a diagnostic
string, so every JS expression that can throw is modelled in `Except String`,
the error being the thrown message (texts follow V8). -/

/-- JS property read `v[k]`: `undefined` (`none`) on everything but an object
with the field; reading a property of `null` throws a TypeError. The object
properties this program reads (`content`, `blocks`, `type`, `text`, `level`,
`language`, `items`, `valueRange`, `sheets`, `sheetName`, `values`) do not
exist on primitives or arrays, so those receivers answer `undefined`. -/
def getFieldE (v : JVal) (k : String) : Except String (Option JVal) :=
  match v with
  | .null => .error ("Cannot read properties of null (reading " ++ k ++ ")")
  | .obj fs => .ok (fs.lookup k)
  | _ => .ok none

/-- Total variant of the property read for use in statements: the lookup that
`getFieldE` performs on a non-null receiver. -/
def jsGet (v : JVal) (k : String) : Option JVal :=
  match v with
  | .obj fs => fs.lookup k
  | _ => none

/-- Truthiness of the property `k` of `v`, for stating dispatch conditions
such as `if (content.content)`. -/
def fieldTruthy (v : JVal) (k : String) : Bool := truthy (jsGet v k)

/-- JS `for (const x of v)`: arrays iterate their elements, strings their
characters (as one-character strings); any other value is not iterable and
throws a TypeError. (The program only ever reaches this with a truthy value
or a literal array, so the null case folds into the error case.) -/
def forOfList : JVal → Except String (List JVal)
  | .arr xs => .ok xs
  | .str s => .ok (s.data.map (fun c => .str (String.mk [c])))
  | _ => .error "value is not iterable"

/-- String concatenation coercion `x + "..."` where `x` may be `undefined`:
`undefined` prints as "undefined", everything else via `String(x)`. -/
def concatD : Option JVal → String
  | none => "undefined"
  | some v => jsString v

/-- Sequence a fallible map over a list, stopping at the first thrown
error — the shape of the converter loops whose bodies can throw. -/
def mapME (g : α → Except String β) : List α → Except String (List β)
  | [] => .ok []
  | x :: xs => (g x).bind (fun y => (mapME g xs).map (fun ys => y :: ys))

/-- JS strict equality `v === "lit"` of a possibly-undefined value against a
string literal. -/
def jsStrictEqStr (v : Option JVal) (s : String) : Bool :=
  match v with
  | some (.str t) => t == s
  | _ => false

/-- Digits-only integer literal reading used by `jsToNumber`. -/
def strToIntLit (s : String) : Option Int :=
  match s.data with
  | '-' :: ds => if ds ≠ [] ∧ ds.all Char.isDigit then some (-(natOfDigits ds : Int)) else none
  | ds => if ds ≠ [] ∧ ds.all Char.isDigit then some ((natOfDigits ds : Int)) else none

/-- JS `ToIntegerOrInfinity` as `String.prototype.repeat` applies it,
restricted to the integer payloads of this model: `null` is 0, booleans are
0/1, a string is read as an optionally signed integer literal (a non-numeric
or empty string is NaN resp. 0, both of which truncate to 0), an array is
coerced through its join, an object is NaN hence 0. -/
def jsToNumber : JVal → Int
  | .null => 0
  | .bool b => cond b 1 0
  | .num n => n
  | .str s => (strToIntLit s.trim).getD 0
  | .arr xs => (strToIntLit (jsJoin "," xs).trim).getD 0
  | .obj _ => 0

/-- Markdown for one block of a block document (converter, lines 54-73):
`paragraph`, `heading`, `code` and `list` blocks are rendered, any other
`type` yields nothing. Absent `text` prints as "undefined" through JS string
concatenation; a negative `level` makes `"#".repeat` throw a RangeError. -/
def blockMd (block : JVal) : Except String String := do
  let ty ← getFieldE block "type"
  if jsStrictEqStr ty "paragraph" then do
    let t ← getFieldE block "text"
    pure (concatD t ++ "\n\n")
  else if jsStrictEqStr ty "heading" then do
    let lvOpt ← getFieldE block "level"
    let lv := match truthyOpt lvOpt with
      | some v => jsToNumber v
      | none => 1
    if lv < 0 then .error "Invalid count value"
    else do
      let t ← getFieldE block "text"
      pure (String.mk (List.replicate lv.toNat '#') ++ " " ++ concatD t ++ "\n\n")
  else if jsStrictEqStr ty "code" then do
    let lgOpt ← getFieldE block "language"
    let lg := match truthyOpt lgOpt with
      | some v => jsString v
      | none => ""
    let t ← getFieldE block "text"
    pure ("```" ++ lg ++ "\n" ++ concatD t ++ "\n```\n\n")
  else if jsStrictEqStr ty "list" then do
    let itOpt ← getFieldE block "items"
    let itemsV := match truthyOpt itOpt with
      | some v => v
      | none => .arr []
    let items ← forOfList itemsV
    let lines ← mapME (fun it => do
      let t ← getFieldE it "text"
      pure ("- " ++ concatD t ++ "\n")) items
    pure (String.join lines ++ "\n")
  else pure ""

/-- Spec-side separator join (plain string interleaving). -/
def sepBy (sep : String) : List String → String
  | [] => ""
  | [x] => x
  | x :: y :: xs => x ++ sep ++ sepBy sep (y :: xs)

/-- Markdown table row (converter, lines 87 and 92):
`"| " + row.join(" | ") + " |\n"`; a row that is not an array has no `join`
method and throws a TypeError. -/
def rowMd (row : JVal) : Except String String :=
  match row with
  | .arr cells => .ok ("| " ++ jsJoin " | " cells ++ " |\n")
  | _ => .error "row.join is not a function"

/-- Does `v.length > 0` hold, for `v = sheet.values`? Arrays and strings have
a `length`; on any other value the read gives `undefined` and the comparison
is false. -/
def jsLengthPos : JVal → Bool
  | .arr xs => !xs.isEmpty
  | .str s => !s.isEmpty
  | _ => false

/-- Markdown for one sheet (converter, lines 81-96). Everything — the level-2
heading included — is guarded by `sheet.values && sheet.values.length > 0`,
so a sheet without rows contributes nothing at all. The inner
`values.length > 0` re-check is the same condition and is folded into the
guard. -/
def sheetMd (sheet : JVal) : Except String String := do
  let vsOpt ← getFieldE sheet "values"
  match truthyOpt vsOpt with
  | some vs =>
    if jsLengthPos vs then do
      let nmOpt ← getFieldE sheet "sheetName"
      let nm := match truthyOpt nmOpt with
        | some v => jsString v
        | none => "Sheet"
      match vs with
      | .arr (row0 :: rest) =>
        (match row0 with
         | .arr cells => do
           let dataRows ← mapME rowMd rest
           pure ("## " ++ nm ++ "\n\n"
             ++ "| " ++ jsJoin " | " cells ++ " |\n"
             ++ "| " ++ sepBy " | " (List.replicate cells.length "---") ++ " |\n"
             ++ String.join dataRows ++ "\n")
         | _ => .error "values[0].join is not a function")
      | _ => .error "values[0].join is not a function"
    else pure ""
  | none => pure ""

/-- Body of `processDocContent` after the string/parse preamble (converter,
lines 49-101), over the current (parsed) value: a truthy `content` property
selects the block branch, else a truthy `valueRange` or `sheets` property
selects the sheet branch, else the value is pretty-printed as JSON. -/
def handleParsedE (content : JVal) : Except String String := do
  let cOpt ← getFieldE content "content"
  match truthyOpt cOpt with
  | some cv => do
    let bOpt ← getFieldE cv "blocks"
    let blocks := match truthyOpt bOpt with
      | some b => b
      | none => .arr []
    let items ← forOfList blocks
    let mds ← mapME blockMd items
    pure (String.join mds)
  | none => do
    let vrOpt ← getFieldE content "valueRange"
    match truthyOpt vrOpt with
    | some vr => do
      let mds ← mapME sheetMd [vr]
      pure (String.join mds)
    | none => do
      let shOpt ← getFieldE content "sheets"
      match truthyOpt shOpt with
      | some sh => do
        let sheets ← forOfList sh
        let mds ← mapME sheetMd sheets
        pure (String.join mds)
      | none => pure (stringify2 content)

/-- Run the converter body under the surrounding try/catch (converter, lines
103-106): a thrown error is turned into the diagnostic string embedding the
compact JSON of the current value. -/
def normalizeParsed (v : JVal) : String :=
  match handleParsedE v with
  | .ok md => md
  | .error msg => "处理内容出错: " ++ msg ++ "\n\n原始内容:\n" ++ stringifyC v

/-- `DocConverter.processDocContent` (converter, lines 37-107): a string
input is first JSON-parsed, and returned unchanged when parsing fails; the
resulting value then goes through the branch dispatch under the try/catch. -/
def processDocContent (v : JVal) : String :=
  match v with
  | .str s =>
    (match jsonParse s with
     | none => s
     | some v2 => normalizeParsed v2)
  | v => normalizeParsed v

/-! File-name sanitization. Two implementations exist: `DocConverter.
sanitizeFileName` (converter, lines 31-35) chains the character-class
replace with a whitespace-run replace; `FeishuMcpServer.sanitizeFileName`
(server.ts 439-441) performs only the character-class replace. -/

/-- Membership in the character class of both regexes (backslash, slash,
colon, asterisk, question mark, double quote, angle brackets, pipe). -/
def isIllegalChar (c : Char) : Bool :=
  c = '\\' || c = '/' || c = ':' || c = '*' || c = '?' || c = '"' || c = '<' || c = '>' || c = '|'

/-- First replace pass: the class matches single characters, so each one
becomes an underscore. -/
def replaceIllegalChars (cs : List Char) : List Char :=
  cs.map (fun c => if isIllegalChar c then '_' else c)

/-- Whitespace as matched by the regex `\s` (the ASCII portion; the payload
strings this is applied to contain no exotic Unicode spaces). -/
def jsIsWs (c : Char) : Bool :=
  c = ' ' || c = '\t' || c = '\n' || c = '\r' || c = '\x0b' || c = '\x0c'

/-- Second replace pass, `.replace(/\s+/g, "_")`: each maximal whitespace run
becomes a single underscore. The flag records whether the previous character
belonged to a run already replaced. -/
def collapseWsAux : Bool → List Char → List Char
  | _, [] => []
  | inRun, c :: cs =>
    if jsIsWs c then
      (if inRun then collapseWsAux true cs else '_' :: collapseWsAux true cs)
    else c :: collapseWsAux false cs

/-- Second replace pass from the start of the string. -/
def collapseWs (cs : List Char) : List Char := collapseWsAux false cs

/-- `DocConverter.sanitizeFileName` (converter, lines 31-35): both passes. -/
def sanitizeFileName (s : String) : String :=
  String.mk (collapseWs (replaceIllegalChars s.data))

/-- `FeishuMcpServer.sanitizeFileName` (server.ts 439-441): character-class
pass only; whitespace is left as it is. -/
def serverSanitizeFileName (s : String) : String :=
  String.mk (replaceIllegalChars s.data)

/-- Written from the claim: in one pass over the input, each character of the
illegal set becomes an underscore and each maximal whitespace run becomes a
single underscore. -/
def sanitizeSpecAux : Bool → List Char → List Char
  | _, [] => []
  | inRun, c :: cs =>
    if jsIsWs c then
      (if inRun then sanitizeSpecAux true cs else '_' :: sanitizeSpecAux true cs)
    else if isIllegalChar c then '_' :: sanitizeSpecAux false cs
    else c :: sanitizeSpecAux false cs

/-- Claim-side sanitizer on strings. -/
def sanitizeSpec (s : String) : String := String.mk (sanitizeSpecAux false s.data)

/-! The API client `FeishuClient` (feishu.ts). Each `async` method is
modelled as a function from the outcomes of its awaited collaborators to the
outcome of the promise it returns; an outcome is `Except String α` with the
error message as payload. -/

/-- JS `String.prototype.includes`. -/
def jsIncludes (s pat : String) : Bool := decide (pat.data <:+: s.data)

/-- JS `String.prototype.toLowerCase` (ASCII; the object types compared are
ASCII). -/
def jsToLower (s : String) : String := String.mk (s.data.map Char.toLower)

/-- Semantics of `try { ...sync...; return promise } catch (e) { handler }`
inside an `async` function, as in `getSpaces`, `getNodes`,
`getDocumentContent` and `getContentByType`: a synchronous throw before the
`return` is caught, but the returned promise is adopted only after the `try`
block has been exited, so — the call not being awaited — a rejection of that
promise bypasses the catch entirely. -/
def tryReturnAsync (body : Except String (Except String α)) (handler : String → Except String α) :
    Except String α :=
  match body with
  | .error e => handler e
  | .ok p => p

structure SpaceItem where
  space_id : String
  name : String
deriving Repr, DecidableEq

/-- Payload of the space-listing response (items/has_more; the page token is
not consumed by the modelled paths). -/
structure SpaceResponse where
  items : List SpaceItem
  has_more : Bool
deriving Repr, DecidableEq

/-- Payload of a raw-content response. The source interface also carries an
optional title and an index signature that no modelled path reads. -/
structure DocumentContent where
  content : String
  revision : Int
deriving Repr, DecidableEq

/-- `FeishuClient.getSpaces` (feishu.ts 142-161), given the outcome of the
underlying `request`. The body before `return this.request(...)` cannot
throw, so the catch — which maps an "Access denied" message to a clarified
error and anything else to the empty listing — only ever sees synchronous
throws that do not occur; a rejected request propagates. -/
def getSpaces (req : Except String SpaceResponse) : Except String SpaceResponse :=
  tryReturnAsync (.ok req) (fun e =>
    if jsIncludes e "Access denied" then
      .error "API权限不足: 需要wiki:wiki或wiki:wiki:readonly权限"
    else .ok ⟨[], false⟩)

/-- `FeishuClient.getDocumentContent` (feishu.ts 221-234): same structure as
`getSpaces`, with the empty-content fallback in the catch. -/
def getDocumentContent (req : Except String DocumentContent) : Except String DocumentContent :=
  tryReturnAsync (.ok req) (fun e =>
    if jsIncludes e "Access denied" then
      .error "API权限不足: 需要docs:document:readonly或docs:document权限"
    else .ok ⟨"", 0⟩)

/-- `FeishuClient.getContentByType` (feishu.ts 238-258), given per-token
outcomes of the raw-content request. The `sheet`, `bitable` and default
arms throw synchronously inside the `try`, so the catch converts them to
`{content: "", revision: 0}`; the `doc` arm returns the
`getDocumentContent` promise unawaited, so its rejection bypasses the
catch. -/
def getContentByType (docFetch : String → Except String DocumentContent)
    (objToken objType : String) : Except String DocumentContent :=
  tryReturnAsync
    (match jsToLower objType with
     | "doc" => .ok (getDocumentContent (docFetch objToken))
     | "sheet" => .error "暂不支持获取电子表格内容"
     | "bitable" => .error "暂不支持获取多维表格内容"
     | _ => .error ("不支持的文档类型: " ++ objType))
    (fun _ => .ok ⟨"", 0⟩)

/-- Resolved node data (`nodeInfo.node`): an absent `obj_token` / `obj_type`
/ `title` is modelled as the empty string, since the source only ever tests
them for JS truthiness and empty strings are falsy. -/
structure WikiNode where
  obj_token : String
  obj_type : String
  title : String
deriving Repr, DecidableEq

/-- `FeishuClient.downloadWikiDocument` (feishu.ts 262-288), given the
outcome of `getNodeInfo` (`none` models a response whose `node` — or the
whole payload — is falsy) and the raw-content outcomes. Both awaited calls
are awaited in the source, and the surrounding catch rethrows, so errors
propagate; `contentResponse.content || ""` is the identity on strings. -/
def downloadWikiDocument (nodeToken : String)
    (nodeInfoOf : String → Except String (Option WikiNode))
    (docFetch : String → Except String DocumentContent) : Except String (String × String) :=
  match nodeInfoOf nodeToken with
  | .error e => .error e
  | .ok none => .error ("未找到节点信息: " ++ nodeToken)
  | .ok (some nd) =>
    if nd.obj_token = "" || nd.obj_type = "" then .error ("节点信息不完整: " ++ nodeToken)
    else
      match getContentByType docFetch nd.obj_token nd.obj_type with
      | .error e => .error e
      | .ok cr => .ok (cr.content, if nd.title = "" then "未命名文档" else nd.title)

/-- One node of a node-listing page (the fields the download path reads). -/
structure NodeItem where
  node_token : String
  obj_type : String
  title : String
deriving Repr, DecidableEq

/-- Payload of one `getNodes` page. `items` and `page_token` are optional in
the wire format and defaulted with `|| []` resp. `|| ""` by the loop
(`|| ""` also collapses a present-but-empty token, which an `Option.getD`
of the empty string matches); `has_more || false` is the identity on an
actual boolean. -/
structure NodesPage where
  items : Option (List NodeItem)
  page_token : Option String
  has_more : Bool
deriving Repr, DecidableEq

/-- State of the pagination loop in `downloadSpaceDocuments` (feishu.ts
297-311): iteration index (the model lets the server answer by call number
and token), current `pageToken`, current `hasMore`, accumulated nodes. -/
structure LoopSt where
  idx : Nat
  tok : String
  hasMore : Bool
  acc : List NodeItem
deriving Repr, DecidableEq

/-- Outcome of running the pagination loop some number of iterations. -/
inductive PageRes where
  | err (e : String)
  | done (nodes : List NodeItem)
  | more (st : LoopSt)
deriving Repr, DecidableEq

/-- One iteration of the pagination loop: test `hasMore` at the top, fetch
the page (a rejection escapes to the outer catch, which rethrows), append
`items || []`, take `page_token || ""` and `has_more`, and break immediately
on an empty token. -/
def pageStep (pages : Nat → String → Except String NodesPage) (st : LoopSt) : PageRes :=
  if st.hasMore = false then .done st.acc
  else
    match pages st.idx st.tok with
    | .error e => .err e
    | .ok r =>
      let acc := st.acc ++ r.items.getD []
      if r.page_token.getD "" = "" then .done acc
      else .more ⟨st.idx + 1, r.page_token.getD "", r.has_more, acc⟩

/-- Continue a loop outcome: a still-running state is handed to the
continuation, a finished outcome is final. -/
def contPage (r : PageRes) (k : LoopSt → PageRes) : PageRes :=
  match r with
  | .more st2 => k st2
  | r => r

/-- Run up to `n` iterations of the loop from a given state. -/
def runPagesAux (pages : Nat → String → Except String NodesPage) : Nat → LoopSt → PageRes
  | 0, st => .more st
  | n + 1, st => contPage (pageStep pages st) (fun st2 => runPagesAux pages n st2)

/-- Run up to `n` iterations of the loop from its initial state
(`pageToken = ""`, `hasMore = true`, no nodes). -/
def runPages (pages : Nat → String → Except String NodesPage) (n : Nat) : PageRes :=
  runPagesAux pages n ⟨0, "", true, []⟩

/-- Has the loop finished (normally or by throwing)? -/
def pagesFinished : PageRes → Bool
  | .more _ => false
  | _ => true

/-- The pagination loop terminates against this server: some number of
iterations suffices to leave the loop. -/
def PaginationTerminates (pages : Nat → String → Except String NodesPage) : Prop :=
  ∃ n, pagesFinished (runPages pages n) = true

/-- A misbehaving server that answers every page request with
`has_more: true` and the non-empty cursor "t". -/
def relentlessPages : Nat → String → Except String NodesPage :=
  fun _ _ => .ok ⟨some [], some "t", true⟩

/-- Node filter of `downloadSpaceDocuments` (feishu.ts 316-318). -/
def isDocNode (nd : NodeItem) : Bool :=
  nd.obj_type == "doc" || nd.obj_type == "sheet" || nd.obj_type == "bitable"

/-- Did the computation succeed? -/
def isOkE (r : Except String α) : Bool :=
  match r with
  | .ok _ => true
  | .error _ => false

/-- The sequential download loop (feishu.ts 326-334): each node's download
runs inside its own try/catch, a success incrementing `downloaded` and a
failure `failed`. Returns the two counters. -/
def dlCounts (dl : NodeItem → Except String (String × String)) : List NodeItem → Nat × Nat
  | [] => (0, 0)
  | nd :: nds =>
    let rest := dlCounts dl nds
    if isOkE (dl nd) then (rest.1 + 1, rest.2) else (rest.1, rest.2 + 1)

/-- Result record of `downloadSpaceDocuments`. -/
structure DlResult where
  downloaded : Nat
  total : Nat
  failed : Nat
deriving Repr, DecidableEq

/-- `FeishuClient.downloadSpaceDocuments` (feishu.ts 292-341) under a fuel
bound on the pagination loop: `none` means the loop was still running after
`fuel` iterations; otherwise the collected nodes are filtered to document
types and downloaded one by one. -/
def downloadSpaceDocuments (pages : Nat → String → Except String NodesPage)
    (nodeInfoOf : String → Except String (Option WikiNode))
    (docFetch : String → Except String DocumentContent)
    (fuel : Nat) : Option (Except String DlResult) :=
  match runPages pages fuel with
  | .more _ => none
  | .err e => some (.error e)
  | .done nodes =>
    let docNodes := nodes.filter isDocNode
    let c := dlCounts (fun nd => downloadWikiDocument nd.node_token nodeInfoOf docFetch) docNodes
    some (.ok ⟨c.1, docNodes.length, c.2⟩)

/-! The token cache (`FeishuClient.getAccessToken`, feishu.ts 64-90). -/

/-- Mutable token state: `accessToken` (`none` = JS `null`) and
`tokenExpireTime` in milliseconds. -/
structure TokenState where
  accessToken : Option String
  tokenExpireTime : Int
deriving Repr, DecidableEq

/-- Body of a successful exchange response: envelope `code`/`msg`, the
token, and the reported lifetime `expire` in seconds. -/
structure ExchangeResp where
  code : Int
  msg : String
  tenant_access_token : String
  expire : Int
deriving Repr, DecidableEq

/-- The cache-hit test `this.accessToken && Date.now() < this.tokenExpireTime`
(JS truthiness: a null or empty token fails it). -/
def tokenValid (st : TokenState) (now : Int) : Bool :=
  (match st.accessToken with
   | some t => t != ""
   | none => false) && decide (now < st.tokenExpireTime)

/-- `getAccessToken` as one sequential call at time `now` (both `Date.now()`
reads collapse to the one instant), given the outcome the exchange endpoint
would produce: result, new state, and the number of exchange requests issued
(0 on a cache hit, 1 otherwise). On success the expiry is cached as
`now + expire * 1000 - 5 * 60 * 1000` (the 300-second safety margin); a
non-zero code throws, and the catch rethrows. -/
def getAccessToken (st : TokenState) (now : Int) (exch : Except String ExchangeResp) :
    Except String String × TokenState × Nat :=
  if tokenValid st now then (.ok (st.accessToken.getD ""), st, 0)
  else
    match exch with
    | .error e => (.error e, st, 1)
    | .ok r =>
      if r.code = 0 then
        (.ok r.tenant_access_token,
         ⟨some r.tenant_access_token, now + r.expire * 1000 - 5 * 60 * 1000⟩, 1)
      else (.error ("获取飞书Token失败: " ++ r.msg), st, 1)

/-! Interleaving model for concurrent `getAccessToken` callers. The source
body has exactly one suspension point — the awaited `axios.post` — so each
call is two atomic segments: the synchronous prefix (cache check; on a miss
the request is issued as the segment ends) and the resumption when the
response arrives (cache write, return). Two callers are interleaved by a
schedule of these segments. -/

/-- Position of one caller inside `getAccessToken`. -/
inductive SfPc where
  | start
  | awaiting
  | finished (result : Except String String)
deriving Repr

/-- Global state of the interleaving: the shared cache fields, both program
counters, how many exchange requests are currently in flight, how many were
ever issued, and the largest number simultaneously in flight. -/
structure SfState where
  cache : TokenState
  pc0 : SfPc
  pc1 : SfPc
  inFlight : Nat
  issued : Nat
  maxInFlight : Nat
deriving Repr

/-- One schedulable segment: caller `i`'s synchronous prefix, or the arrival
of caller `i`'s response `r`. -/
inductive SfEvent where
  | check (i : Bool)
  | respond (i : Bool) (r : ExchangeResp)

/-- Program counter of caller `i`. -/
def SfState.pc (st : SfState) (i : Bool) : SfPc := cond i st.pc1 st.pc0

/-- Replace the program counter of caller `i`. -/
def SfState.setPc (st : SfState) (i : Bool) (p : SfPc) : SfState :=
  if i then { st with pc1 := p } else { st with pc0 := p }

/-- Execute one segment. A `check` of a caller at `start` either finishes at
once on a cache hit or issues its own exchange request and suspends — there
is no stored in-flight promise to join, so the miss arm always issues. A
`respond` resumes a suspended caller: on code 0 it writes the shared cache
and returns the token, otherwise it throws. Segments that do not match the
caller's position do nothing. -/
def sfStep (now : Int) (st : SfState) : SfEvent → SfState
  | .check i =>
    (match st.pc i with
     | .start =>
       if tokenValid st.cache now then
         st.setPc i (.finished (.ok (st.cache.accessToken.getD "")))
       else
         { (st.setPc i .awaiting) with
           inFlight := st.inFlight + 1
           issued := st.issued + 1
           maxInFlight := max st.maxInFlight (st.inFlight + 1) }
     | _ => st)
  | .respond i r =>
    (match st.pc i with
     | .awaiting =>
       if r.code = 0 then
         { (st.setPc i (.finished (.ok r.tenant_access_token))) with
           cache := ⟨some r.tenant_access_token, now + r.expire * 1000 - 5 * 60 * 1000⟩
           inFlight := st.inFlight - 1 }
       else
         { (st.setPc i (.finished (.error ("获取飞书Token失败: " ++ r.msg)))) with
           inFlight := st.inFlight - 1 }
     | _ => st)

/-- Initial state: no token cached, both callers about to run. -/
def sfInit : SfState := ⟨⟨none, 0⟩, .start, .start, 0, 0, 0⟩

/-- Run a schedule of segments from the initial state. -/
def sfRun (now : Int) (events : List SfEvent) : SfState :=
  events.foldl (sfStep now) sfInit

/-! Claim-side constructions for the sheet normalization claim. -/

/-- A table row of string cells, as the JS payload carries it. -/
def mkRow (r : List String) : JVal := .arr (r.map .str)

/-- A sheet object: optional `sheetName`, and `values` holding the rows. -/
def mkSheet (nm : Option String) (rows : List (List String)) : JVal :=
  .obj ((match nm with
         | some n => [("sheetName", JVal.str n)]
         | none => []) ++
        [("values", JVal.arr (rows.map mkRow))])

/-- A payload carrying a list of sheets. -/
def mkSheetsPayload (sheets : List (Option String × List (List String))) : JVal :=
  .obj [("sheets", .arr (sheets.map (fun p => mkSheet p.1 p.2)))]

/-- A payload carrying a single value range. -/
def mkValueRangePayload (nm : Option String) (rows : List (List String)) : JVal :=
  .obj [("valueRange", mkSheet nm rows)]

/-- Heading text from the claim: the sheet's name when it is a truthy
(non-empty) string, the literal "Sheet" otherwise. -/
def sheetNameSpec : Option String → String
  | some n => if n = "" then "Sheet" else n
  | none => "Sheet"

/-- Table text from the claim: header row, separator row with one `---` cell
per header column, the data rows, then a blank line. -/
def tableSpec : List (List String) → String
  | [] => ""
  | r0 :: rest =>
    "| " ++ sepBy " | " r0 ++ " |\n"
      ++ "| " ++ sepBy " | " (List.replicate r0.length "---") ++ " |\n"
      ++ String.join (rest.map (fun r => "| " ++ sepBy " | " r ++ " |\n")) ++ "\n"

/-- Amended per-sheet output: a sheet with rows renders heading plus table; a
sheet with no rows contributes nothing (not even its heading). -/
def sheetMdSpec (nm : Option String) (rows : List (List String)) : String :=
  if rows = [] then "" else "## " ++ sheetNameSpec nm ++ "\n\n" ++ tableSpec rows

/-! ### Basic lemmas on digits, whitespace and string escapes -/

theorem digitChar_toNat {d : Nat} (h : d < 10) : (digitChar d).toNat = 48 + d := by
  interval_cases d <;> decide

theorem digitChar_isDigit {d : Nat} (h : d < 10) : (digitChar d).isDigit = true := by
  interval_cases d <;> decide

theorem decDigits_ne_nil (n : Nat) : decDigits n ≠ [] := by
  rw [decDigits]
  split <;> simp

theorem decDigits_all_digit (n : Nat) : ∀ c ∈ decDigits n, c.isDigit = true := by
  induction n using Nat.strong_induction_on with
  | _ n ih =>
    rw [decDigits]
    split
    · next h => simp [digitChar_isDigit h]
    · next h =>
      intro c hc
      rcases List.mem_append.mp hc with h1 | h1
      · exact ih (n / 10) (Nat.div_lt_self (by omega) (by omega)) c h1
      · simp at h1
        subst h1
        exact digitChar_isDigit (Nat.mod_lt n (by omega))

theorem natOfDigits_append (ds : List Char) (d : Char) :
    natOfDigits (ds ++ [d]) = 10 * natOfDigits ds + (d.toNat - 48) := by
  simp [natOfDigits, List.foldl_append]

theorem natOfDigits_decDigits (n : Nat) : natOfDigits (decDigits n) = n := by
  induction n using Nat.strong_induction_on with
  | _ n ih =>
    rw [decDigits]
    split
    · next h =>
      simp [natOfDigits, digitChar_toNat h]
    · next h =>
      rw [natOfDigits_append, ih (n / 10) (Nat.div_lt_self (by omega) (by omega)),
        digitChar_toNat (Nat.mod_lt n (by omega))]
      omega

theorem takeWhile_digits {ds rest : List Char} (h : ∀ c ∈ ds, c.isDigit = true)
    (hr : numSafe rest = true) :
    (ds ++ rest).takeWhile Char.isDigit = ds ∧ (ds ++ rest).dropWhile Char.isDigit = rest := by
  induction ds with
  | nil =>
    cases rest with
    | nil => simp
    | cons c cs =>
      simp only [numSafe, Bool.not_eq_true'] at hr
      simp [List.takeWhile, List.dropWhile, hr]
  | cons c cs ih =>
    have hc : c.isDigit = true := h c (by simp)
    have := ih (fun x hx => h x (by simp [hx]))
    simp [List.takeWhile, List.dropWhile, hc, this.1, this.2]

theorem parseNat_decDigits (n : Nat) {rest : List Char} (hr : numSafe rest = true) :
    parseNat (decDigits n ++ rest) = some (n, rest) := by
  have h := takeWhile_digits (decDigits_all_digit n) hr
  simp [parseNat, h.1, h.2, decDigits_ne_nil n, natOfDigits_decDigits]

theorem skipWs_append {l : List Char} (cs : List Char) (h : allWs l) :
    skipWs (l ++ cs) = skipWs cs := by
  induction l with
  | nil => rfl
  | cons c t ih =>
    have hc : isWsChar c = true := h c (by simp)
    simp only [List.cons_append, skipWs, hc, if_true]
    exact ih (fun x hx => h x (by simp [hx]))

theorem skipWs_cons {c : Char} (cs : List Char) (h : isWsChar c = false) :
    skipWs (c :: cs) = c :: cs := by
  simp [skipWs, h]

theorem skipWs_idem (cs : List Char) : skipWs (skipWs cs) = skipWs cs := by
  induction cs with
  | nil => rfl
  | cons c t ih =>
    by_cases h : isWsChar c = true
    · simp [skipWs, h, ih]
    · simp only [Bool.not_eq_true] at h
      rw [skipWs_cons t h, skipWs_cons t h]

theorem allWs_indent (i : Nat) : allWs (indentChars i) := by
  intro c hc
  have := List.eq_of_mem_replicate hc
  subst this
  rfl

theorem allWs_singleton_nl : allWs ['\n'] := by
  intro c hc
  simp at hc
  subst hc
  rfl

theorem char_digit_bounds {c : Char} (h : c.isDigit = true) :
    48 ≤ c.toNat ∧ c.toNat ≤ 57 := by
  simp only [Char.isDigit, Bool.and_eq_true, decide_eq_true_eq] at h
  exact ⟨h.1, h.2⟩

theorem char_ne_of_toNat {c d : Char} (h : c.toNat ≠ d.toNat) : ¬(c = d) := by
  intro he
  exact h (by rw [he])

theorem goodHead_of_digit {c : Char} (h : c.isDigit = true) : goodHead c = true := by
  obtain ⟨h1, h2⟩ := char_digit_bounds h
  have n1 : ¬(c = ' ') := char_ne_of_toNat (by simp; omega)
  have n2 : ¬(c = '\n') := char_ne_of_toNat (by simp; omega)
  have n3 : ¬(c = '\t') := char_ne_of_toNat (by simp; omega)
  have n4 : ¬(c = '\r') := char_ne_of_toNat (by simp; omega)
  have n5 : ¬(c = ']') := char_ne_of_toNat (by simp; omega)
  have n6 : ¬(c = '\x7d') := char_ne_of_toNat (by simp; omega)
  simp [goodHead, isWsChar, n1, n2, n3, n4, n5, n6]

theorem digit_not_special {c : Char} (h : c.isDigit = true) :
    ¬(c = '"') ∧ ¬(c = '[') ∧ ¬(c = '\x7b') ∧ ¬(c = '-') := by
  obtain ⟨h1, h2⟩ := char_digit_bounds h
  exact ⟨char_ne_of_toNat (by simp; omega), char_ne_of_toNat (by simp; omega),
    char_ne_of_toNat (by simp; omega), char_ne_of_toNat (by simp; omega)⟩

theorem decDigits_cons (n : Nat) :
    ∃ c t, decDigits n = c :: t ∧ c.isDigit = true := by
  rcases hd : decDigits n with _ | ⟨c, t⟩
  · exact absurd hd (decDigits_ne_nil n)
  · exact ⟨c, t, rfl, decDigits_all_digit n c (by rw [hd]; simp)⟩

theorem stringify_head (ind : Nat) (v : JVal) :
    ∃ c t, stringifyChars ind v = c :: t ∧ goodHead c = true := by
  cases v with
  | null => exact ⟨'n', ['u', 'l', 'l'], by simp [stringifyChars], by decide⟩
  | bool b =>
    cases b with
    | false => exact ⟨'f', ['a', 'l', 's', 'e'], by simp [stringifyChars], by decide⟩
    | true => exact ⟨'t', ['r', 'u', 'e'], by simp [stringifyChars], by decide⟩
  | num n =>
    by_cases h : n < 0
    · refine ⟨'-', decDigits n.natAbs, ?_, by decide⟩
      simp [stringifyChars, intChars, h]
    · obtain ⟨c, t, hd, hdig⟩ := decDigits_cons n.natAbs
      refine ⟨c, t, ?_, goodHead_of_digit hdig⟩
      simp [stringifyChars, intChars, h, hd]
  | str s =>
    exact ⟨'"', escList s.data ++ ['"'], by simp [stringifyChars, quoteChars], by decide⟩
  | arr xs =>
    cases xs with
    | nil => exact ⟨'[', [']'], by simp [stringifyChars], by decide⟩
    | cons x t =>
      exact ⟨'[', '\n' :: (stringifyItems (ind + 1) (x :: t) ++ '\n' :: (indentChars ind ++ [']'])),
        by simp [stringifyChars], by decide⟩
  | obj fs =>
    cases fs with
    | nil => exact ⟨'\x7b', ['\x7d'], by simp [stringifyChars], by decide⟩
    | cons f t =>
      exact ⟨'\x7b',
        '\n' :: (stringifyFields (ind + 1) (f :: t) ++ '\n' :: (indentChars ind ++ ['\x7d'])),
        by simp [stringifyChars], by decide⟩

theorem skipWs_lead_stringify {lead : List Char} (ind : Nat) (v : JVal) (X : List Char)
    (h : allWs lead) :
    skipWs (lead ++ (stringifyChars ind v ++ X)) = stringifyChars ind v ++ X := by
  obtain ⟨c, t, hd, hg⟩ := stringify_head ind v
  rw [skipWs_append _ h, hd]
  refine skipWs_cons _ ?_
  simp only [goodHead, Bool.and_eq_true, Bool.not_eq_true'] at hg
  exact hg.1.1

theorem hexVal_digitChar {d : Nat} (h : d < 10) : hexVal (digitChar d) = some d := by
  interval_cases d <;> decide

theorem hexVal_letter {d : Nat} (h1 : 10 ≤ d) (h2 : d < 16) :
    hexVal (Char.ofNat (87 + d)) = some d := by
  interval_cases d <;> decide

theorem parseStrBody_escList (cs : List Char) (rest : List Char) :
    parseStrBody (escList cs ++ '"' :: rest) = some (cs, rest) := by
  induction cs with
  | nil => simp [escList, parseStrBody]
  | cons c t ih =>
    show parseStrBody ((escapeChar c ++ escList t) ++ '"' :: rest) = _
    rw [List.append_assoc]
    by_cases h1 : c = '"'
    · subst h1; simp [escapeChar, parseStrBody, parseEsc, escCharFor, ih]
    by_cases h2 : c = '\\'
    · subst h2; simp [escapeChar, parseStrBody, parseEsc, escCharFor, ih]
    by_cases h3 : c = '\x08'
    · subst h3; simp [escapeChar, parseStrBody, parseEsc, escCharFor, ih]
    by_cases h4 : c = '\t'
    · subst h4; simp [escapeChar, parseStrBody, parseEsc, escCharFor, ih]
    by_cases h5 : c = '\n'
    · subst h5; simp [escapeChar, parseStrBody, parseEsc, escCharFor, ih]
    by_cases h6 : c = '\x0c'
    · subst h6; simp [escapeChar, parseStrBody, parseEsc, escCharFor, ih]
    by_cases h7 : c = '\r'
    · subst h7; simp [escapeChar, parseStrBody, parseEsc, escCharFor, ih]
    by_cases h8 : c.toNat < 32
    · have hdiv : c.toNat / 16 < 10 := by omega
      have e : escapeChar c =
          ['\\', 'u', '0', '0', digitChar (c.toNat / 16),
           if c.toNat % 16 < 10 then digitChar (c.toNat % 16)
           else Char.ofNat (87 + c.toNat % 16)] := by
        simp [escapeChar, h1, h2, h3, h4, h5, h6, h7, h8, hdiv]
      have hlo : hexVal (if c.toNat % 16 < 10 then digitChar (c.toNat % 16)
          else Char.ofNat (87 + c.toNat % 16)) = some (c.toNat % 16) := by
        by_cases hm : c.toNat % 16 < 10
        · simp only [if_pos hm]
          exact hexVal_digitChar hm
        · have hlt : c.toNat % 16 < 16 := Nat.mod_lt _ (by omega)
          simp only [if_neg hm]
          exact hexVal_letter (by omega) hlt
      have harith : ((0 * 16 + 0) * 16 + c.toNat / 16) * 16 + c.toNat % 16 = c.toNat := by
        omega
      rw [e]
      simp only [List.cons_append, List.nil_append]
      simp [parseStrBody, parseEsc, parseUEsc, escCharFor,
        show hexVal '0' = some 0 from by decide, hexVal_digitChar hdiv, hlo,
        Option.bind, harith, Char.ofNat_toNat, ih]
      rw [show c.toNat / 16 * 16 + c.toNat % 16 = c.toNat from by omega, Char.ofNat_toNat]
    · have e : escapeChar c = [c] := by
        simp [escapeChar, h1, h2, h3, h4, h5, h6, h7, h8]
      rw [e]
      simp only [List.cons_append, List.nil_append]
      rw [parseStrBody.eq_2, if_neg h1, if_neg h2, ih]
      rfl

/-! ### The printer-parser round trip -/

theorem allWs_append {a b : List Char} (ha : allWs a) (hb : allWs b) : allWs (a ++ b) := by
  intro c hc
  rcases List.mem_append.mp hc with h | h
  · exact ha c h
  · exact hb c h

theorem allWs_nil : allWs [] := by intro c hc; simp at hc

theorem jsizeV_pos (v : JVal) : 1 ≤ jsizeV v := by
  cases v with
  | arr xs => cases xs <;> simp [jsizeV]
  | obj fs => cases fs <;> simp [jsizeV]
  | _ => simp [jsizeV]

theorem jsizeL_pos {xs : List JVal} (h : xs ≠ []) : 1 ≤ jsizeL xs := by
  cases xs with
  | nil => exact absurd rfl h
  | cons x t => simp [jsizeL]; omega

theorem jsizeF_pos {fs : List (String × JVal)} (h : fs ≠ []) : 1 ≤ jsizeF fs := by
  cases fs with
  | nil => exact absurd rfl h
  | cons f t => obtain ⟨k, v⟩ := f; simp [jsizeF]; omega

theorem headIs_false_of_goodHead {c : Char} (l : List Char) (h : goodHead c = true) :
    headIs ']' (c :: l) = false ∧ headIs '\x7d' (c :: l) = false := by
  simp only [goodHead, Bool.and_eq_true, Bool.not_eq_true', decide_eq_false_iff_not] at h
  simp [headIs, h.1.2, h.2]

theorem stringifyItems_shape (ind : Nat) (x : JVal) (xs : List JVal) :
    ∃ t, stringifyItems ind (x :: xs) = indentChars ind ++ (stringifyChars ind x ++ t) := by
  cases xs with
  | nil => exact ⟨[], by simp [stringifyItems]⟩
  | cons y t =>
    exact ⟨',' :: '\n' :: stringifyItems ind (y :: t), by simp [stringifyItems]⟩

theorem stringifyFields_shape (ind : Nat) (k : String) (v : JVal)
    (fs : List (String × JVal)) :
    ∃ t, stringifyFields ind ((k, v) :: fs)
      = indentChars ind ++ ('"' :: (escList k.data ++ ['"'] ++ (':' :: ' ' :: (stringifyChars ind v ++ t)))) := by
  cases fs with
  | nil => exact ⟨[], by simp [stringifyFields, quoteChars]⟩
  | cons f t =>
    exact ⟨',' :: '\n' :: stringifyFields ind (f :: t), by simp [stringifyFields, quoteChars]⟩

theorem parseJVal_skipWs (f : Nat) (cs : List Char) :
    parseJVal f (skipWs cs) = parseJVal f cs := by
  cases f with
  | zero => simp [parseJVal]
  | succ f => simp [parseJVal, skipWs_idem]

theorem parseElems_skipWs (f : Nat) (cs : List Char) :
    parseElems f (skipWs cs) = parseElems f cs := by
  cases f with
  | zero => simp [parseElems]
  | succ f => simp [parseElems, parseJVal_skipWs]

mutual

theorem parseJVal_print (v : JVal) (f ind : Nat) (lead rest : List Char)
    (hl : allWs lead) (hf : jsizeV v ≤ f) (hr : numSafe rest = true) :
    parseJVal f (lead ++ (stringifyChars ind v ++ rest)) = some (v, rest) := by
  cases f with
  | zero => exact absurd (le_trans (jsizeV_pos v) hf) (by omega)
  | succ f =>
    simp only [parseJVal]
    rw [skipWs_lead_stringify ind v rest hl]
    cases v with
    | null =>
      rw [show stringifyChars ind .null = ['n', 'u', 'l', 'l'] from by simp [stringifyChars]]
      simp only [List.cons_append, List.nil_append, parseJValCore]
      rw [if_neg (by decide), if_neg (by decide), if_neg (by decide), if_neg (by decide),
        if_neg (by decide)]
      simp [dropLit]
    | bool b =>
      cases b with
      | true =>
        rw [show stringifyChars ind (.bool true) = ['t', 'r', 'u', 'e'] from by
          simp [stringifyChars]]
        simp only [List.cons_append, List.nil_append, parseJValCore]
        rw [if_neg (by decide), if_neg (by decide), if_neg (by decide), if_neg (by decide),
          if_neg (by decide), if_neg (by decide)]
        simp [dropLit]
      | false =>
        rw [show stringifyChars ind (.bool false) = ['f', 'a', 'l', 's', 'e'] from by
          simp [stringifyChars]]
        simp only [List.cons_append, List.nil_append, parseJValCore]
        rw [if_neg (by decide), if_neg (by decide), if_neg (by decide), if_neg (by decide),
          if_neg (by decide), if_neg (by decide), if_neg (by decide)]
        simp [dropLit]
    | num n =>
      rw [show stringifyChars ind (.num n) = intChars n from by simp [stringifyChars]]
      by_cases hn : n < 0
      · rw [show intChars n = '-' :: decDigits n.natAbs from by simp [intChars, hn]]
        simp only [List.cons_append, parseJValCore]
        rw [if_neg (by decide), if_neg (by decide), if_neg (by decide), if_pos (by decide)]
        rw [parseNat_decDigits n.natAbs hr]
        simp only [Option.map_some']
        have : -((n.natAbs : Int)) = n := by omega
        rw [this]
      · obtain ⟨c, t, hd, hdig⟩ := decDigits_cons n.natAbs
        obtain ⟨g1, g2, g3, g4⟩ := digit_not_special hdig
        rw [show intChars n = decDigits n.natAbs from by simp [intChars, hn], hd]
        simp only [List.cons_append, parseJValCore]
        rw [if_neg g1, if_neg g2, if_neg g3, if_neg g4, if_pos hdig]
        rw [show c :: (t ++ rest) = (c :: t) ++ rest from rfl, ← hd,
          parseNat_decDigits n.natAbs hr]
        simp only [Option.map_some']
        have : ((n.natAbs : Int)) = n := by omega
        rw [this]
    | str s =>
      rw [show stringifyChars ind (.str s) = '"' :: (escList s.data ++ ['"']) from by
        simp [stringifyChars, quoteChars]]
      simp only [List.cons_append, parseJValCore]
      rw [if_pos (by decide)]
      rw [show (escList s.data ++ ['"']) ++ rest = escList s.data ++ '"' :: rest from by simp]
      rw [parseStrBody_escList]
      rfl
    | arr xs =>
      cases xs with
      | nil =>
        rw [show stringifyChars ind (.arr []) = ['[', ']'] from by simp [stringifyChars]]
        simp only [List.cons_append, List.nil_append, parseJValCore]
        rw [if_neg (by decide), if_pos (by decide)]
        rw [skipWs_cons _ (by decide)]
        simp [headIs]
      | cons x t =>
        rw [show stringifyChars ind (.arr (x :: t))
            = '[' :: '\n' :: (stringifyItems (ind + 1) (x :: t) ++ '\n' :: (indentChars ind ++ [']']))
          from by simp [stringifyChars]]
        simp only [List.cons_append, parseJValCore]
        rw [if_neg (by decide), if_pos (by decide)]
        have harg : '\n' :: ((stringifyItems (ind + 1) (x :: t)
              ++ '\n' :: (indentChars ind ++ [']'])) ++ rest)
            = ['\n'] ++ (stringifyItems (ind + 1) (x :: t)
                ++ '\n' :: (indentChars ind ++ ']' :: rest)) := by
          simp
        rw [harg]
        obtain ⟨tl, htl⟩ := stringifyItems_shape (ind + 1) x t
        obtain ⟨c, ct, hc, hg⟩ := stringify_head (ind + 1) x
        have hskip : skipWs (['\n'] ++ (stringifyItems (ind + 1) (x :: t)
            ++ '\n' :: (indentChars ind ++ ']' :: rest)))
            = stringifyChars (ind + 1) x
              ++ (tl ++ '\n' :: (indentChars ind ++ ']' :: rest)) := by
          rw [htl]
          rw [show (['\n'] ++ ((indentChars (ind + 1) ++ (stringifyChars (ind + 1) x ++ tl))
              ++ '\n' :: (indentChars ind ++ ']' :: rest)))
            = (['\n'] ++ indentChars (ind + 1))
              ++ (stringifyChars (ind + 1) x ++ (tl ++ '\n' :: (indentChars ind ++ ']' :: rest)))
            from by simp]
          exact skipWs_lead_stringify (ind + 1) x _
            (allWs_append allWs_singleton_nl (allWs_indent (ind + 1)))
        have hhead : headIs ']' (skipWs (['\n'] ++ (stringifyItems (ind + 1) (x :: t)
            ++ '\n' :: (indentChars ind ++ ']' :: rest)))) = false := by
          rw [hskip, hc]
          simp only [List.cons_append]
          exact (headIs_false_of_goodHead _ hg).1
        rw [hhead]
        simp only [Bool.false_eq_true, if_false]
        rw [parseElems_skipWs]
        rw [parseElems_print (x :: t) (by simp) f (ind + 1) ['\n'] (indentChars ind) rest
          allWs_singleton_nl (allWs_indent ind) (by simp [jsizeV] at hf; omega)]
        rfl
    | obj fs =>
      cases fs with
      | nil =>
        rw [show stringifyChars ind (.obj []) = ['\x7b', '\x7d'] from by simp [stringifyChars]]
        simp only [List.cons_append, List.nil_append, parseJValCore]
        rw [if_neg (by decide), if_neg (by decide), if_pos (by decide)]
        rw [skipWs_cons _ (by decide)]
        simp [headIs]
      | cons kv t =>
        obtain ⟨k, v⟩ := kv
        rw [show stringifyChars ind (.obj ((k, v) :: t))
            = '\x7b' :: '\n' :: (stringifyFields (ind + 1) ((k, v) :: t)
                ++ '\n' :: (indentChars ind ++ ['\x7d']))
          from by simp [stringifyChars]]
        simp only [List.cons_append, parseJValCore]
        rw [if_neg (by decide), if_neg (by decide), if_pos (by decide)]
        have harg : '\n' :: ((stringifyFields (ind + 1) ((k, v) :: t)
              ++ '\n' :: (indentChars ind ++ ['\x7d'])) ++ rest)
            = ['\n'] ++ (stringifyFields (ind + 1) ((k, v) :: t)
                ++ '\n' :: (indentChars ind ++ '\x7d' :: rest)) := by
          simp
        rw [harg]
        obtain ⟨tl, htl⟩ := stringifyFields_shape (ind + 1) k v t
        have hskip : skipWs (['\n'] ++ (stringifyFields (ind + 1) ((k, v) :: t)
            ++ '\n' :: (indentChars ind ++ '\x7d' :: rest)))
            = '"' :: (escList k.data ++ ['"'] ++ (':' :: ' ' :: (stringifyChars (ind + 1) v ++ tl)))
              ++ '\n' :: (indentChars ind ++ '\x7d' :: rest) := by
          rw [htl]
          rw [show (['\n'] ++ ((indentChars (ind + 1)
              ++ ('"' :: (escList k.data ++ ['"'] ++ (':' :: ' ' :: (stringifyChars (ind + 1) v ++ tl)))))
              ++ '\n' :: (indentChars ind ++ '\x7d' :: rest)))
            = (['\n'] ++ indentChars (ind + 1))
              ++ ('"' :: (escList k.data ++ ['"'] ++ (':' :: ' ' :: (stringifyChars (ind + 1) v ++ tl)))
                ++ '\n' :: (indentChars ind ++ '\x7d' :: rest)) from by simp]
          rw [skipWs_append _ (allWs_append allWs_singleton_nl (allWs_indent (ind + 1)))]
          exact skipWs_cons _ (by decide)
        have hhead : headIs '\x7d' (skipWs (['\n'] ++ (stringifyFields (ind + 1) ((k, v) :: t)
            ++ '\n' :: (indentChars ind ++ '\x7d' :: rest)))) = false := by
          rw [hskip]
          simp [headIs]
        rw [hhead]
        simp only [Bool.false_eq_true, if_false]
        rw [parseFields_print ((k, v) :: t) (by simp) f (ind + 1) ['\n'] (indentChars ind) rest
          allWs_singleton_nl (allWs_indent ind) (by simp [jsizeV] at hf; omega)]
        rfl
  termination_by f

theorem parseElems_print (xs : List JVal) (hne : xs ≠ []) (f ind : Nat)
    (lead ws rest : List Char) (hl : allWs lead) (hw : allWs ws) (hf : jsizeL xs ≤ f) :
    parseElems f (lead ++ (stringifyItems ind xs ++ '\n' :: (ws ++ ']' :: rest)))
      = some (xs, rest) := by
  cases f with
  | zero => exact absurd (le_trans (jsizeL_pos hne) hf) (by omega)
  | succ f =>
    cases xs with
    | nil => exact absurd rfl hne
    | cons x t =>
      simp only [parseElems]
      cases t with
      | nil =>
        rw [show stringifyItems ind [x] = indentChars ind ++ stringifyChars ind x from by
          simp [stringifyItems]]
        rw [show lead ++ ((indentChars ind ++ stringifyChars ind x)
              ++ '\n' :: (ws ++ ']' :: rest))
          = (lead ++ indentChars ind)
            ++ (stringifyChars ind x ++ '\n' :: (ws ++ ']' :: rest)) from by simp]
        rw [parseJVal_print x f ind (lead ++ indentChars ind) ('\n' :: (ws ++ ']' :: rest))
          (allWs_append hl (allWs_indent ind)) (by simp [jsizeL] at hf; omega) rfl]
        simp only [Option.some_bind]
        rw [show skipWs ('\n' :: (ws ++ ']' :: rest)) = ']' :: rest from by
          rw [show ('\n' :: (ws ++ ']' :: rest)) = (['\n'] ++ ws) ++ ']' :: rest from by simp,
            skipWs_append _ (allWs_append allWs_singleton_nl hw)]
          exact skipWs_cons _ (by decide)]
        simp [headIs]
      | cons y t2 =>
        rw [show stringifyItems ind (x :: y :: t2)
            = indentChars ind ++ stringifyChars ind x ++ ',' :: '\n' :: stringifyItems ind (y :: t2)
          from by simp [stringifyItems]]
        rw [show lead ++ ((indentChars ind ++ stringifyChars ind x
              ++ ',' :: '\n' :: stringifyItems ind (y :: t2)) ++ '\n' :: (ws ++ ']' :: rest))
          = (lead ++ indentChars ind)
            ++ (stringifyChars ind x
              ++ ',' :: '\n' :: (stringifyItems ind (y :: t2) ++ '\n' :: (ws ++ ']' :: rest)))
          from by simp]
        rw [parseJVal_print x f ind (lead ++ indentChars ind)
          (',' :: '\n' :: (stringifyItems ind (y :: t2) ++ '\n' :: (ws ++ ']' :: rest)))
          (allWs_append hl (allWs_indent ind)) (by simp [jsizeL] at hf; omega) rfl]
        simp only [Option.some_bind]
        rw [skipWs_cons _ (by decide)]
        simp only [headIs, List.tail_cons]
        rw [if_pos (by decide)]
        rw [show ('\n' :: (stringifyItems ind (y :: t2) ++ '\n' :: (ws ++ ']' :: rest)))
          = ['\n'] ++ (stringifyItems ind (y :: t2) ++ '\n' :: (ws ++ ']' :: rest)) from rfl]
        rw [parseElems_print (y :: t2) (by simp) f ind ['\n'] ws rest allWs_singleton_nl hw
          (by simp [jsizeL] at hf ⊢; omega)]
        rfl
  termination_by f

theorem parseFields_print (fs : List (String × JVal)) (hne : fs ≠ []) (f ind : Nat)
    (lead ws rest : List Char) (hl : allWs lead) (hw : allWs ws) (hf : jsizeF fs ≤ f) :
    parseFields f (skipWs (lead ++ (stringifyFields ind fs ++ '\n' :: (ws ++ '\x7d' :: rest))))
      = some (fs, rest) := by
  cases f with
  | zero => exact absurd (le_trans (jsizeF_pos hne) hf) (by omega)
  | succ f =>
    cases fs with
    | nil => exact absurd rfl hne
    | cons kv t =>
      obtain ⟨k, v⟩ := kv
      cases t with
      | nil =>
        rw [show lead ++ (stringifyFields ind [(k, v)] ++ '\n' :: (ws ++ '\x7d' :: rest))
            = (lead ++ indentChars ind)
              ++ ('"' :: (escList k.data
                ++ ('"' :: (':' :: (' ' :: (stringifyChars ind v
                  ++ ('\n' :: (ws ++ ('\x7d' :: rest)))))))))
          from by simp [stringifyFields, quoteChars]]
        rw [skipWs_append _ (allWs_append hl (allWs_indent ind)), skipWs_cons _ (by decide)]
        simp only [parseFields, headIs]
        rw [if_pos (by decide)]
        simp only [List.tail_cons]
        rw [parseStrBody_escList]
        simp only [Option.some_bind]
        rw [skipWs_cons _ (by decide)]
        simp only [headIs]
        rw [if_pos (by decide)]
        simp only [List.tail_cons]
        rw [show (' ' :: (stringifyChars ind v ++ ('\n' :: (ws ++ ('\x7d' :: rest)))))
          = [' '] ++ (stringifyChars ind v ++ ('\n' :: (ws ++ ('\x7d' :: rest)))) from rfl]
        rw [parseJVal_print v f ind [' '] ('\n' :: (ws ++ ('\x7d' :: rest)))
          (by intro c hc; simp at hc; subst hc; rfl) (by simp [jsizeF] at hf; omega) rfl]
        simp only [Option.some_bind]
        rw [show skipWs ('\n' :: (ws ++ ('\x7d' :: rest))) = '\x7d' :: rest from by
          rw [show ('\n' :: (ws ++ ('\x7d' :: rest))) = (['\n'] ++ ws) ++ '\x7d' :: rest
            from by simp, skipWs_append _ (allWs_append allWs_singleton_nl hw)]
          exact skipWs_cons _ (by decide)]
        simp only [headIs]
        rw [if_neg (by decide), if_pos (by decide)]
        rfl
      | cons kv2 t2 =>
        rw [show lead ++ (stringifyFields ind ((k, v) :: kv2 :: t2)
              ++ '\n' :: (ws ++ '\x7d' :: rest))
            = (lead ++ indentChars ind)
              ++ ('"' :: (escList k.data
                ++ ('"' :: (':' :: (' ' :: (stringifyChars ind v
                  ++ (',' :: ('\n' :: (stringifyFields ind (kv2 :: t2)
                    ++ '\n' :: (ws ++ '\x7d' :: rest))))))))))
          from by simp [stringifyFields, quoteChars]]
        rw [skipWs_append _ (allWs_append hl (allWs_indent ind)), skipWs_cons _ (by decide)]
        simp only [parseFields, headIs]
        rw [if_pos (by decide)]
        simp only [List.tail_cons]
        rw [parseStrBody_escList]
        simp only [Option.some_bind]
        rw [skipWs_cons _ (by decide)]
        simp only [headIs]
        rw [if_pos (by decide)]
        simp only [List.tail_cons]
        rw [show (' ' :: (stringifyChars ind v
              ++ (',' :: ('\n' :: (stringifyFields ind (kv2 :: t2)
                ++ '\n' :: (ws ++ '\x7d' :: rest))))))
          = [' '] ++ (stringifyChars ind v
              ++ (',' :: ('\n' :: (stringifyFields ind (kv2 :: t2)
                ++ '\n' :: (ws ++ '\x7d' :: rest))))) from rfl]
        rw [parseJVal_print v f ind [' ']
          (',' :: ('\n' :: (stringifyFields ind (kv2 :: t2) ++ '\n' :: (ws ++ '\x7d' :: rest))))
          (by intro c hc; simp at hc; subst hc; rfl) (by simp [jsizeF] at hf; omega) rfl]
        simp only [Option.some_bind]
        rw [skipWs_cons _ (by decide)]
        simp only [headIs]
        rw [if_pos (by decide)]
        simp only [List.tail_cons]
        rw [show skipWs ('\n' :: (stringifyFields ind (kv2 :: t2)
              ++ '\n' :: (ws ++ '\x7d' :: rest)))
            = skipWs (['\n'] ++ (stringifyFields ind (kv2 :: t2)
              ++ '\n' :: (ws ++ '\x7d' :: rest))) from rfl]
        rw [parseFields_print (kv2 :: t2) (by simp) f ind ['\n'] ws rest allWs_singleton_nl hw
          (by simp [jsizeF] at hf ⊢; omega)]
        rfl
  termination_by f

end

mutual

theorem jsizeV_le (v : JVal) (ind : Nat) : jsizeV v ≤ (stringifyChars ind v).length := by
  cases v with
  | null => simp [jsizeV, stringifyChars]
  | bool b => cases b <;> simp [jsizeV, stringifyChars]
  | num n =>
    have h : decDigits n.natAbs ≠ [] := decDigits_ne_nil n.natAbs
    have h2 : 1 ≤ (decDigits n.natAbs).length := List.length_pos.mpr h
    by_cases hn : n < 0 <;> (simp [jsizeV, stringifyChars, intChars, hn]; try omega)
  | str s => simp [jsizeV, stringifyChars, quoteChars]
  | arr xs =>
    cases xs with
    | nil => simp [jsizeV, stringifyChars]
    | cons x t =>
      have h := jsizeL_le (x :: t) (ind + 1)
      simp only [jsizeV, stringifyChars, List.length_cons, List.length_append,
        indentChars, List.length_replicate] at h ⊢
      omega
  | obj fs =>
    cases fs with
    | nil => simp [jsizeV, stringifyChars]
    | cons kv t =>
      have h := jsizeF_le (kv :: t) (ind + 1)
      simp only [jsizeV, stringifyChars, List.length_cons, List.length_append,
        indentChars, List.length_replicate] at h ⊢
      omega
  termination_by sizeOf v

theorem jsizeL_le (xs : List JVal) (ind : Nat) :
    jsizeL xs ≤ (stringifyItems ind xs).length + 1 := by
  cases xs with
  | nil => simp [jsizeL]
  | cons x t =>
    have hx := jsizeV_le x ind
    cases t with
    | nil =>
      simp only [jsizeL, stringifyItems, List.length_append, indentChars,
        List.length_replicate]
      omega
    | cons y t2 =>
      have ht := jsizeL_le (y :: t2) ind
      simp only [jsizeL, stringifyItems, List.length_append, List.length_cons, indentChars,
        List.length_replicate] at ht ⊢
      omega
  termination_by sizeOf xs

theorem jsizeF_le (fs : List (String × JVal)) (ind : Nat) :
    jsizeF fs ≤ (stringifyFields ind fs).length + 1 := by
  cases fs with
  | nil => simp [jsizeF]
  | cons kv t =>
    obtain ⟨k, v⟩ := kv
    have hv := jsizeV_le v ind
    cases t with
    | nil =>
      simp only [jsizeF, stringifyFields, List.length_append, List.length_cons, indentChars,
        List.length_replicate, quoteChars]
      omega
    | cons kv2 t2 =>
      have ht := jsizeF_le (kv2 :: t2) ind
      simp only [jsizeF, stringifyFields, List.length_append, List.length_cons, indentChars,
        List.length_replicate, quoteChars] at ht ⊢
      omega
  termination_by sizeOf fs

end

/-- The §8 round trip: parsing the two-space JSON rendering of any value
recovers the value exactly. -/
theorem jsonParse_stringify2 (v : JVal) : jsonParse (stringify2 v) = some v := by
  have h := parseJVal_print v ((stringifyChars 0 v).length + 1) 0 [] [] allWs_nil
    (le_trans (jsizeV_le v 0) (by omega)) rfl
  simp only [List.nil_append, List.append_nil] at h
  simp [jsonParse, stringify2, h, skipWs]

/-! ### Normalizer lemmas -/

theorem getFieldE_ne_null {v : JVal} (hv : v ≠ .null) (k : String) :
    getFieldE v k = .ok (jsGet v k) := by
  cases v with
  | null => exact absurd rfl hv
  | bool b => rfl
  | num n => rfl
  | str s => rfl
  | arr xs => rfl
  | obj fs => rfl

theorem truthyOpt_none_of_false {o : Option JVal} (h : truthy o = false) :
    truthyOpt o = none := by
  cases o with
  | none => rfl
  | some v =>
    simp only [truthy] at h
    simp [truthyOpt, h]

theorem jsJoin_map_str (sep : String) (l : List String) :
    jsJoin sep (l.map .str) = sepBy sep l := by
  induction l with
  | nil => simp [jsJoin, sepBy]
  | cons x t ih =>
    cases t with
    | nil => simp [jsJoin, jsElemStr, sepBy]
    | cons y t2 =>
      simp only [List.map_cons] at ih ⊢
      rw [show jsJoin sep (JVal.str x :: JVal.str y :: t2.map JVal.str)
          = jsElemStr (.str x) ++ sep ++ jsJoin sep (JVal.str y :: t2.map JVal.str)
        from by simp [jsJoin]]
      rw [ih]
      simp [jsElemStr, sepBy]

theorem rowMd_mkRow (r : List String) :
    rowMd (mkRow r) = .ok ("| " ++ sepBy " | " r ++ " |\n") := by
  simp [rowMd, mkRow, jsJoin_map_str]

theorem mapME_rowMd (rows : List (List String)) :
    mapME rowMd (rows.map mkRow)
      = .ok (rows.map (fun r => "| " ++ sepBy " | " r ++ " |\n")) := by
  induction rows with
  | nil => rfl
  | cons r t ih => simp [mapME, rowMd_mkRow r, ih, Bind.bind, Except.bind, Except.map]

theorem sheetMd_mkSheet (nm : Option String) (rows : List (List String)) :
    sheetMd (mkSheet nm rows) = .ok (sheetMdSpec nm rows) := by
  have hv : getFieldE (mkSheet nm rows) "values" = .ok (some (.arr (rows.map mkRow))) := by
    cases nm <;> simp [mkSheet, getFieldE, List.lookup]
  cases rows with
  | nil =>
    simp [sheetMd, hv, truthyOpt, truthyV, jsLengthPos, Bind.bind, Except.bind, Except.map, sheetMdSpec, pure,
      Except.pure]
  | cons r0 rest =>
    have hname : getFieldE (mkSheet nm (r0 :: rest)) "sheetName"
        = .ok (nm.map JVal.str) := by
      cases nm <;> simp [mkSheet, getFieldE, List.lookup]
    cases nm with
    | none =>
      simp [sheetMd, hv, hname, truthyOpt, truthyV, jsLengthPos, mkRow, jsJoin_map_str,
        mapME_rowMd, Bind.bind, Except.bind, Except.map, pure, Except.pure, sheetMdSpec,
        tableSpec, sheetNameSpec]
      apply String.ext
      simp [String.data_append]
    | some n =>
      by_cases hn : n = ""
      · subst hn
        simp [sheetMd, hv, hname, truthyOpt, truthyV, jsLengthPos, mkRow, jsJoin_map_str,
          mapME_rowMd, Bind.bind, Except.bind, Except.map, pure, Except.pure, sheetMdSpec,
          tableSpec, sheetNameSpec]
        apply String.ext
        simp [String.data_append]
      · simp [sheetMd, hv, hname, hn, truthyOpt, truthyV, jsLengthPos, mkRow, jsJoin_map_str,
          mapME_rowMd, Bind.bind, Except.bind, Except.map, pure, Except.pure, sheetMdSpec,
          tableSpec, sheetNameSpec, jsString]
        apply String.ext
        simp [String.data_append]

theorem mapME_sheetMd (sheets : List (Option String × List (List String))) :
    mapME sheetMd (sheets.map (fun p => mkSheet p.1 p.2))
      = .ok (sheets.map (fun p => sheetMdSpec p.1 p.2)) := by
  induction sheets with
  | nil => rfl
  | cons p t ih =>
    simp [mapME, sheetMd_mkSheet p.1 p.2, ih, Bind.bind, Except.bind, Except.map]

/-- Normalizing a sheets payload renders exactly the per-sheet Markdown of
the amended claim, sheet by sheet. -/
theorem processDocContent_mkSheets (sheets : List (Option String × List (List String))) :
    processDocContent (mkSheetsPayload sheets)
      = String.join (sheets.map (fun p => sheetMdSpec p.1 p.2)) := by
  simp [processDocContent, normalizeParsed, handleParsedE, mkSheetsPayload, getFieldE,
    List.lookup, truthyOpt, truthyV, forOfList, mapME_sheetMd, Bind.bind, Except.bind,
    Except.map, pure, Except.pure]

/-- Normalizing a single value range renders the same per-sheet Markdown. -/
theorem processDocContent_mkValueRange (nm : Option String) (rows : List (List String)) :
    processDocContent (mkValueRangePayload nm rows) = sheetMdSpec nm rows := by
  have hc : getFieldE (JVal.obj [("valueRange", mkSheet nm rows)]) "content" = .ok none := by
    simp [getFieldE, List.lookup]
  have hvr : getFieldE (JVal.obj [("valueRange", mkSheet nm rows)]) "valueRange"
      = .ok (some (mkSheet nm rows)) := by
    simp [getFieldE, List.lookup]
  have htr : truthyOpt (some (mkSheet nm rows)) = some (mkSheet nm rows) := by
    cases nm <;> simp [truthyOpt, truthyV, mkSheet]
  show processDocContent (JVal.obj [("valueRange", mkSheet nm rows)]) = _
  simp [processDocContent, normalizeParsed, handleParsedE, hc, hvr, htr,
    show truthyOpt none = none from rfl, mapME, sheetMd_mkSheet, Bind.bind, Except.bind,
    Except.map, pure, Except.pure]
  apply String.ext
  simp [String.join, String.data_append]

/-- On a non-null parsed value with no truthy `content`, `valueRange` or
`sheets` property, the converter body returns the two-space JSON rendering. -/
theorem normalizeParsed_fallback {v : JVal} (hv : v ≠ .null)
    (h1 : fieldTruthy v "content" = false) (h2 : fieldTruthy v "valueRange" = false)
    (h3 : fieldTruthy v "sheets" = false) :
    normalizeParsed v = stringify2 v := by
  have t1 : truthyOpt (jsGet v "content") = none :=
    truthyOpt_none_of_false (by simpa [fieldTruthy] using h1)
  have t2 : truthyOpt (jsGet v "valueRange") = none :=
    truthyOpt_none_of_false (by simpa [fieldTruthy] using h2)
  have t3 : truthyOpt (jsGet v "sheets") = none :=
    truthyOpt_none_of_false (by simpa [fieldTruthy] using h3)
  simp [normalizeParsed, handleParsedE, getFieldE_ne_null hv, t1, t2, t3, Bind.bind,
    Except.bind, pure, Except.pure]

/-! ### Sanitizer lemmas -/

theorem illegal_not_ws {c : Char} (h : isIllegalChar c = true) : jsIsWs c = false := by
  simp only [isIllegalChar, Bool.or_eq_true, decide_eq_true_eq] at h
  rcases h with ((((((((h | h) | h) | h) | h) | h) | h) | h) | h) <;> subst h <;> decide

/-- The two replace passes of `DocConverter.sanitizeFileName` compute the
one-pass sanitizer of the claim. -/
theorem sanitize_equiv (cs : List Char) : ∀ flag : Bool,
    collapseWsAux flag (replaceIllegalChars cs) = sanitizeSpecAux flag cs := by
  induction cs with
  | nil => intro flag; rfl
  | cons c cs ih =>
    intro flag
    rw [show replaceIllegalChars (c :: cs)
      = (if isIllegalChar c then '_' else c) :: replaceIllegalChars cs from by
        simp [replaceIllegalChars]]
    by_cases hI : isIllegalChar c = true
    · have hw : jsIsWs c = false := illegal_not_ws hI
      simp [collapseWsAux, sanitizeSpecAux, hI, hw, show jsIsWs '_' = false from rfl, ih]
    · simp only [Bool.not_eq_true] at hI
      by_cases hw : jsIsWs c = true
      · simp [collapseWsAux, sanitizeSpecAux, hI, hw, ih]
      · simp only [Bool.not_eq_true] at hw
        simp [collapseWsAux, sanitizeSpecAux, hI, hw, ih]

/-! ### Pagination and download lemmas -/

theorem pageStep_noMore (pages : Nat → String → Except String NodesPage) (st : LoopSt)
    (h : st.hasMore = false) : pageStep pages st = .done st.acc := by
  simp [pageStep, h]

theorem pageStep_emptyTok (pages : Nat → String → Except String NodesPage) (st : LoopSt)
    (r : NodesPage) (hm : st.hasMore = true) (hp : pages st.idx st.tok = .ok r)
    (ht : r.page_token.getD "" = "") :
    pageStep pages st = .done (st.acc ++ r.items.getD []) := by
  simp [pageStep, hm, hp, ht]

theorem pageStep_more_inv (pages : Nat → String → Except String NodesPage) (st st2 : LoopSt)
    (h : pageStep pages st = .more st2) : st.hasMore = true ∧ st2.tok ≠ "" := by
  by_cases hm : st.hasMore = false
  · rw [pageStep_noMore pages st hm] at h
    exact absurd h (by simp)
  · simp only [Bool.not_eq_false] at hm
    refine ⟨hm, ?_⟩
    simp only [pageStep, hm, Bool.true_eq_false, if_false] at h
    rcases hp : pages st.idx st.tok with e | r
    · simp only [hp] at h; exact absurd h (by simp)
    · simp only [hp] at h
      by_cases ht : r.page_token.getD "" = ""
      · rw [if_pos ht] at h; exact absurd h (by simp)
      · rw [if_neg ht] at h
        have : st2 = ⟨st.idx + 1, r.page_token.getD "", r.has_more, st.acc ++ r.items.getD []⟩ := by
          cases h; rfl
        subst this
        exact ht

theorem relentless_never_done : ∀ (n : Nat) (st : LoopSt), st.hasMore = true →
    pagesFinished (runPagesAux relentlessPages n st) = false := by
  intro n
  induction n with
  | zero => intro st _; rfl
  | succ n ih =>
    intro st hm
    have hstep : pageStep relentlessPages st
        = .more ⟨st.idx + 1, "t", true, st.acc ++ []⟩ := by
      simp [pageStep, relentlessPages, hm]
    simp only [runPagesAux, hstep, contPage]
    exact ih _ rfl

theorem dlCounts_spec (dl : NodeItem → Except String (String × String)) (nds : List NodeItem) :
    dlCounts dl nds = ((nds.filter (fun nd => isOkE (dl nd))).length,
                       (nds.filter (fun nd => !isOkE (dl nd))).length) := by
  induction nds with
  | nil => rfl
  | cons nd t ih =>
    by_cases h : isOkE (dl nd) = true
    · simp [dlCounts, ih, List.filter, h]
    · simp only [Bool.not_eq_true] at h
      simp [dlCounts, ih, List.filter, h]

theorem filter_split_len (p : α → Bool) (l : List α) :
    (l.filter p).length + (l.filter (fun a => !p a)).length = l.length := by
  induction l with
  | nil => rfl
  | cons x t ih =>
    by_cases h : p x = true
    · simp [List.filter, h]; omega
    · simp only [Bool.not_eq_true] at h
      simp [List.filter, h]; omega

/-! ### The claims -/

/-- C1: the spec says `getSpaces` degrades a permission-denied request error
to `{items: [], has_more: false}` and `getDocumentContent` to
`{content: "", revision: 0}`. The code intends this — the comments above the
fallbacks say so — but both methods return the `request` promise without
`await`, so a rejection bypasses the catch: evaluated at a rejected request
(here the permission-denied message the `request` wrapper produces for error
code 99991672), both methods propagate the error instead of degrading. -/
theorem claim_C1 :
    (∀ e : String, getSpaces (.error e) = .error e)
    ∧ (∀ e : String, getDocumentContent (.error e) = .error e)
    ∧ getSpaces (.error "API请求失败: Access denied (错误码: 99991672)")
        = .error "API请求失败: Access denied (错误码: 99991672)"
    ∧ getDocumentContent (.error "API请求失败: Access denied (错误码: 99991672)")
        = .error "API请求失败: Access denied (错误码: 99991672)" :=
  ⟨fun _ => rfl, fun _ => rfl, rfl, rfl⟩

/-- C2 (amended): normalizing a sheet payload emits, for each sheet that has
at least one row, a level-2 heading (the sheet's name when it is a non-empty
string, the literal "Sheet" otherwise) followed by the Markdown table whose
header is the first row, whose separator row has one `---` cell per header
column, whose remaining rows are the data rows, then a blank line; a sheet
with zero rows contributes nothing at all — not the heading the original
claim promises. The same holds for a single value range. -/
theorem claim_C2 :
    (∀ sheets : List (Option String × List (List String)),
        processDocContent (mkSheetsPayload sheets)
          = String.join (sheets.map (fun p => sheetMdSpec p.1 p.2)))
    ∧ (∀ (nm : Option String) (rows : List (List String)),
        processDocContent (mkValueRangePayload nm rows) = sheetMdSpec nm rows) :=
  ⟨processDocContent_mkSheets, processDocContent_mkValueRange⟩

/-- C2 counterexample: a sheet named "S" with zero rows normalizes to the
empty string, not to the heading "## S\n\n" the claim requires. -/
theorem claim_C2_counterexample :
    processDocContent (mkSheetsPayload [(some "S", [])]) = ""
    ∧ ("" : String) ≠ "## S\n\n" := by
  refine ⟨?_, by decide⟩
  rw [processDocContent_mkSheets]
  rfl

/-- C3: whenever the pagination loop finishes with a node list, the batch
download returns `{downloaded, total, failed}` where `total` counts the
document-bearing nodes, `downloaded` the per-node downloads that succeeded
and `failed` the ones that threw — every per-node failure is caught and
counted, and the call itself neither raises nor aborts. -/
theorem claim_C3 (pages : Nat → String → Except String NodesPage)
    (nodeInfoOf : String → Except String (Option WikiNode))
    (docFetch : String → Except String DocumentContent)
    (fuel : Nat) (nodes : List NodeItem)
    (h : runPages pages fuel = .done nodes) :
    downloadSpaceDocuments pages nodeInfoOf docFetch fuel
      = some (.ok
          ⟨((nodes.filter isDocNode).filter (fun nd =>
              isOkE (downloadWikiDocument nd.node_token nodeInfoOf docFetch))).length,
            (nodes.filter isDocNode).length,
            ((nodes.filter isDocNode).filter (fun nd =>
              !isOkE (downloadWikiDocument nd.node_token nodeInfoOf docFetch))).length⟩)
    ∧ ((nodes.filter isDocNode).filter (fun nd =>
          isOkE (downloadWikiDocument nd.node_token nodeInfoOf docFetch))).length
        + ((nodes.filter isDocNode).filter (fun nd =>
          !isOkE (downloadWikiDocument nd.node_token nodeInfoOf docFetch))).length
        = (nodes.filter isDocNode).length := by
  constructor
  · simp [downloadSpaceDocuments, h, dlCounts_spec]
  · exact filter_split_len _ _

/-- C3 witness: five `doc` nodes on one page, the content fetch of the third
rejecting, yield `{downloaded: 4, total: 5, failed: 1}` without raising. -/
theorem claim_C3_witness :
    downloadSpaceDocuments
        (fun _ _ => .ok ⟨some [⟨"t1", "doc", "A"⟩, ⟨"t2", "doc", "B"⟩, ⟨"t3", "doc", "C"⟩,
          ⟨"t4", "doc", "D"⟩, ⟨"t5", "doc", "E"⟩], none, false⟩)
        (fun tok => .ok (some ⟨tok, "doc", "T"⟩))
        (fun tok => if tok = "t3" then .error "network failure" else .ok ⟨"content", 1⟩) 1
      = some (.ok ⟨4, 5, 1⟩) := by
  have h := (claim_C3
    (fun _ _ => .ok ⟨some [⟨"t1", "doc", "A"⟩, ⟨"t2", "doc", "B"⟩, ⟨"t3", "doc", "C"⟩,
      ⟨"t4", "doc", "D"⟩, ⟨"t5", "doc", "E"⟩], none, false⟩)
    (fun tok => .ok (some ⟨tok, "doc", "T"⟩))
    (fun tok => if tok = "t3" then .error "network failure" else .ok ⟨"content", 1⟩)
    1 [⟨"t1", "doc", "A"⟩, ⟨"t2", "doc", "B"⟩, ⟨"t3", "doc", "C"⟩,
      ⟨"t4", "doc", "D"⟩, ⟨"t5", "doc", "E"⟩] rfl).1
  rw [h]
  rfl

/-- C4 (amended): the pagination loop continues only while `has_more` is
true and the returned `page_token` is non-empty — a false `has_more` stops
at the top of the loop, and a response with an empty token ends the loop
right after its page is appended — but termination is not guaranteed for
every sequence of server responses: a server that always answers
`has_more: true` with a non-empty token keeps the loop running forever. -/
theorem claim_C4 :
    (∀ (pages : Nat → String → Except String NodesPage) (st : LoopSt),
        st.hasMore = false → pageStep pages st = .done st.acc)
    ∧ (∀ (pages : Nat → String → Except String NodesPage) (st : LoopSt) (r : NodesPage),
        st.hasMore = true → pages st.idx st.tok = .ok r → r.page_token.getD "" = "" →
        pageStep pages st = .done (st.acc ++ r.items.getD []))
    ∧ (∀ (pages : Nat → String → Except String NodesPage) (st st2 : LoopSt),
        pageStep pages st = .more st2 → st.hasMore = true ∧ st2.tok ≠ "")
    ∧ ¬PaginationTerminates relentlessPages := by
  refine ⟨pageStep_noMore, pageStep_emptyTok, pageStep_more_inv, ?_⟩
  rintro ⟨n, hn⟩
  rw [show runPages relentlessPages n = runPagesAux relentlessPages n ⟨0, "", true, []⟩
    from rfl] at hn
  rw [relentless_never_done n ⟨0, "", true, []⟩ rfl] at hn
  exact Bool.false_ne_true hn

/-- C4 witness: a page reporting `has_more: true` with an empty `page_token`
ends the loop right after the current page. -/
theorem claim_C4_witness :
    pageStep (fun _ _ => Except.ok (⟨some [⟨"n", "doc", "T"⟩], some "", true⟩ : NodesPage))
        ⟨0, "", true, []⟩
      = .done [⟨"n", "doc", "T"⟩] :=
  (claim_C4.2.1 (fun _ _ => Except.ok (⟨some [⟨"n", "doc", "T"⟩], some "", true⟩ : NodesPage))
    ⟨0, "", true, []⟩ ⟨some [⟨"n", "doc", "T"⟩], some "", true⟩ rfl rfl rfl).trans rfl

/-- C4 counterexample: against a server that always reports more data with a
non-empty cursor, no number of iterations finishes the loop — the claim's
"terminates after a bounded number of iterations for every sequence of
server responses" is false. -/
theorem claim_C4_counterexample : ¬PaginationTerminates relentlessPages := by
  rintro ⟨n, hn⟩
  rw [show runPages relentlessPages n = runPagesAux relentlessPages n ⟨0, "", true, []⟩
    from rfl] at hn
  rw [relentless_never_done n ⟨0, "", true, []⟩ rfl] at hn
  exact Bool.false_ne_true hn

/-- C5: every successful exchange (cache miss, envelope code 0) caches
`now + expire·1000 − 300000` milliseconds as the expiry — the reported
lifetime minus exactly the 300-second safety margin — and issues exactly one
exchange request. -/
theorem claim_C5 (st : TokenState) (now : Int) (r : ExchangeResp)
    (hv : tokenValid st now = false) (hc : r.code = 0) :
    (getAccessToken st now (.ok r)).2.1.tokenExpireTime = now + r.expire * 1000 - 300 * 1000
    ∧ (getAccessToken st now (.ok r)).2.2 = 1 := by
  simp [getAccessToken, hv, hc]

/-- C5 witness: a reported lifetime of 7200 seconds caches expiry
issue-time + 6 900 000 ms, i.e. issue-time + 6900 seconds. -/
theorem claim_C5_witness :
    tokenValid ⟨none, 0⟩ 1000 = false
    ∧ (getAccessToken ⟨none, 0⟩ 1000 (.ok ⟨0, "", "tok", 7200⟩)).2.1.tokenExpireTime
        = 1000 + 6900 * 1000 := by
  refine ⟨rfl, ?_⟩
  rw [(claim_C5 ⟨none, 0⟩ 1000 ⟨0, "", "tok", 7200⟩ rfl rfl).1]
  norm_num

/-- C8: starting with no cached token, a first call at `now₁` that exchanges
successfully and a second call at any `now₂` before the cached expiry
perform exactly one exchange in total: the second call consults no exchange
outcome at all, returns the cached token and leaves the state unchanged. -/
theorem claim_C8 (now1 now2 : Int) (r : ExchangeResp) (exch2 : Except String ExchangeResp)
    (hc : r.code = 0) (ht : r.tenant_access_token ≠ "")
    (hn : now2 < now1 + r.expire * 1000 - 300 * 1000) :
    (getAccessToken ⟨none, 0⟩ now1 (.ok r)).2.2
      + (getAccessToken (getAccessToken ⟨none, 0⟩ now1 (.ok r)).2.1 now2 exch2).2.2 = 1
    ∧ (getAccessToken (getAccessToken ⟨none, 0⟩ now1 (.ok r)).2.1 now2 exch2).1
        = .ok r.tenant_access_token
    ∧ (getAccessToken (getAccessToken ⟨none, 0⟩ now1 (.ok r)).2.1 now2 exch2).2.1
        = (getAccessToken ⟨none, 0⟩ now1 (.ok r)).2.1 := by
  have h1 : getAccessToken ⟨none, 0⟩ now1 (.ok r)
      = (.ok r.tenant_access_token,
         ⟨some r.tenant_access_token, now1 + r.expire * 1000 - 300000⟩, 1) := by
    simp [getAccessToken, tokenValid, hc]
  have h2 : tokenValid ⟨some r.tenant_access_token, now1 + r.expire * 1000 - 300000⟩
      now2 = true := by
    simp [tokenValid, ht]
    omega
  rw [h1]
  simp [getAccessToken, h2]

/-- C8 witness: with a 7200-second lifetime issued at time 0, a second call
at time 1 returns the cached token with no second exchange. -/
theorem claim_C8_witness :
    (getAccessToken ⟨none, 0⟩ 0 (.ok ⟨0, "", "tok", 7200⟩)).2.2
      + (getAccessToken (getAccessToken ⟨none, 0⟩ 0 (.ok ⟨0, "", "tok", 7200⟩)).2.1 1
          (.error "unused")).2.2 = 1
    ∧ (getAccessToken (getAccessToken ⟨none, 0⟩ 0 (.ok ⟨0, "", "tok", 7200⟩)).2.1 1
        (.error "unused")).1 = .ok "tok" :=
  ⟨(claim_C8 0 1 ⟨0, "", "tok", 7200⟩ (.error "unused") rfl (by decide) (by norm_num)).1,
   (claim_C8 0 1 ⟨0, "", "tok", 7200⟩ (.error "unused") rfl (by decide) (by norm_num)).2.1⟩

/-- C10: `getContentByType` answers `{content: "", revision: 0}` for the
`sheet` and `bitable` object types without raising (their arms throw
synchronously inside the try, so the catch converts them); the
`downloadSpaceDocuments` filter includes such nodes in the download set; and
a sheet/bitable node whose resolution succeeds with a truthy object token is
downloaded successfully with empty content, hence counted as downloaded. -/
theorem claim_C10 :
    (∀ (docFetch : String → Except String DocumentContent) (tok : String),
        getContentByType docFetch tok "sheet" = .ok ⟨"", 0⟩)
    ∧ (∀ (docFetch : String → Except String DocumentContent) (tok : String),
        getContentByType docFetch tok "bitable" = .ok ⟨"", 0⟩)
    ∧ (∀ nd : NodeItem, nd.obj_type = "sheet" ∨ nd.obj_type = "bitable" → isDocNode nd = true)
    ∧ (∀ (tok : String) (nodeInfoOf : String → Except String (Option WikiNode))
        (docFetch : String → Except String DocumentContent) (nd : WikiNode),
        nodeInfoOf tok = .ok (some nd) → nd.obj_type = "sheet" ∨ nd.obj_type = "bitable" →
        nd.obj_token ≠ "" →
        downloadWikiDocument tok nodeInfoOf docFetch
          = .ok ("", if nd.title = "" then "未命名文档" else nd.title)) := by
  refine ⟨fun _ _ => rfl, fun _ _ => rfl, ?_, ?_⟩
  · intro nd h
    rcases h with h | h <;> simp [isDocNode, h]
  · intro tok nodeInfoOf docFetch nd hres hty htok
    have hc : getContentByType docFetch nd.obj_token nd.obj_type
        = .ok ⟨"", 0⟩ := by
      rcases hty with h | h <;> rw [h] <;> rfl
    have hty2 : nd.obj_type ≠ "" := by
      rcases hty with h | h <;> rw [h] <;> decide
    simp [downloadWikiDocument, hres, htok, hty2, hc]

/-- C10 witness: a `sheet` node that resolves successfully downloads as
empty content with its own title. -/
theorem claim_C10_witness :
    getContentByType (fun _ => .error "never called this way") "objtok" "sheet" = .ok ⟨"", 0⟩
    ∧ downloadWikiDocument "node1" (fun _ => .ok (some ⟨"objtok", "sheet", "Title"⟩))
        (fun _ => .error "never called this way") = .ok ("", "Title") := by
  refine ⟨claim_C10.1 (fun _ => .error "never called this way") "objtok", ?_⟩
  have h := claim_C10.2.2.2 "node1" (fun _ => .ok (some ⟨"objtok", "sheet", "Title"⟩))
    (fun _ => .error "never called this way") ⟨"objtok", "sheet", "Title"⟩ rfl
    (Or.inl rfl) (by decide)
  rw [h]
  rfl

/-- C6 (amended): for every parsed value other than `null` that exposes
neither a truthy `content` property nor a truthy `valueRange`/`sheets`
property, the converter body returns the two-space-indented JSON rendering
of the whole value, and a JSON parser recovers from that rendering a value
equal to the input. The parsed value `null` is the exception the original
claim misses: reading `.content` from it throws, so the converter returns
its diagnostic string instead. -/
theorem claim_C6 (v : JVal) (hv : v ≠ .null)
    (h1 : fieldTruthy v "content" = false) (h2 : fieldTruthy v "valueRange" = false)
    (h3 : fieldTruthy v "sheets" = false) :
    normalizeParsed v = stringify2 v ∧ jsonParse (stringify2 v) = some v :=
  ⟨normalizeParsed_fallback hv h1 h2 h3, jsonParse_stringify2 v⟩

/-- C6 witness: the object `{"a": 1}` falls through to the JSON rendering
and round-trips. -/
theorem claim_C6_witness :
    normalizeParsed (JVal.obj [("a", JVal.num 1)]) = stringify2 (JVal.obj [("a", JVal.num 1)])
    ∧ jsonParse (stringify2 (JVal.obj [("a", JVal.num 1)]))
        = some (JVal.obj [("a", JVal.num 1)]) :=
  claim_C6 (JVal.obj [("a", JVal.num 1)]) (fun h => JVal.noConfusion h) rfl rfl rfl

/-- C6 counterexample: the input "null" parses to the value `null`, which
exposes neither content blocks nor sheet data, yet normalization does not
return its JSON rendering "null" — the `.content` read throws and the
diagnostic string comes back instead. -/
theorem claim_C6_counterexample :
    jsonParse "null" = some .null
    ∧ processDocContent (.str "null") ≠ stringify2 .null := by
  have h1 : jsonParse "null" = some .null := by
    simp [jsonParse, parseJVal, parseJValCore, skipWs, isWsChar, dropLit, headIs]
  refine ⟨h1, ?_⟩
  have h2 : processDocContent (.str "null")
      = "处理内容出错: Cannot read properties of null (reading content)\n\n原始内容:\nnull" := by
    simp [processDocContent, h1, normalizeParsed, handleParsedE, getFieldE, Bind.bind,
      Except.bind, stringifyC, stringifyCChars]
  rw [h2, show stringify2 .null = "null" from rfl]
  decide

/-- C7 (amended): `DocConverter.sanitizeFileName` replaces each character of
the illegal set and each maximal whitespace run with a single underscore,
for every input string; `FeishuMcpServer.sanitizeFileName` replaces only the
illegal characters and leaves whitespace as it is. Both map "a/b:c*d" to
"a_b_c_d". -/
theorem claim_C7 :
    (∀ s : String, sanitizeFileName s = sanitizeSpec s)
    ∧ (∀ s : String, serverSanitizeFileName s = String.mk (replaceIllegalChars s.data))
    ∧ sanitizeFileName "a/b:c*d" = "a_b_c_d"
    ∧ serverSanitizeFileName "a/b:c*d" = "a_b_c_d" := by
  refine ⟨?_, fun _ => rfl, rfl, rfl⟩
  intro s
  simp [sanitizeFileName, sanitizeSpec, collapseWs, sanitize_equiv]

/-- C7 counterexample: the server's sanitizer leaves the space in "a b"
untouched, where the claim demands the whitespace run become an
underscore. -/
theorem claim_C7_counterexample :
    serverSanitizeFileName "a b" = "a b" ∧ ("a b" : String) ≠ "a_b" :=
  ⟨rfl, by decide⟩

/-- C9 (amended): the token refresh has no singleflight. Two concurrent
callers that both run their cache check while the token is absent each issue
their own exchange request — two requests are simultaneously in flight, the
total issued is two, and each caller receives the result of its own request
rather than a shared one. -/
theorem claim_C9 (now : Int) (r0 r1 : ExchangeResp) (h0 : r0.code = 0) (h1 : r1.code = 0) :
    (sfRun now [.check false, .check true, .respond false r0, .respond true r1]).issued = 2
    ∧ (sfRun now [.check false, .check true, .respond false r0, .respond true r1]).maxInFlight
        = 2
    ∧ (sfRun now [.check false, .check true, .respond false r0, .respond true r1]).pc0
        = .finished (.ok r0.tenant_access_token)
    ∧ (sfRun now [.check false, .check true, .respond false r0, .respond true r1]).pc1
        = .finished (.ok r1.tenant_access_token) := by
  simp [sfRun, sfStep, sfInit, SfState.pc, SfState.setPc, tokenValid, h0, h1]

/-- C9 witness: two concrete concurrent callers at time 0. -/
theorem claim_C9_witness :
    (sfRun 0 [.check false, .check true, .respond false ⟨0, "", "tok0", 7200⟩,
      .respond true ⟨0, "", "tok1", 7200⟩]).issued = 2
    ∧ (sfRun 0 [.check false, .check true, .respond false ⟨0, "", "tok0", 7200⟩,
        .respond true ⟨0, "", "tok1", 7200⟩]).maxInFlight = 2
    ∧ (sfRun 0 [.check false, .check true, .respond false ⟨0, "", "tok0", 7200⟩,
        .respond true ⟨0, "", "tok1", 7200⟩]).pc0 = .finished (.ok "tok0")
    ∧ (sfRun 0 [.check false, .check true, .respond false ⟨0, "", "tok0", 7200⟩,
        .respond true ⟨0, "", "tok1", 7200⟩]).pc1 = .finished (.ok "tok1") :=
  claim_C9 0 ⟨0, "", "tok0", 7200⟩ ⟨0, "", "tok1", 7200⟩ rfl rfl

/-- C9 counterexample: after both cache checks of the two concurrent callers
run, two exchange requests are in flight at once — the claim's "at most one
credential-exchange request is in flight at any time" is false, and the two
callers were not coalesced onto one request. -/
theorem claim_C9_counterexample :
    (sfRun 0 [.check false, .check true]).maxInFlight = 2
    ∧ (sfRun 0 [.check false, .check true]).issued = 2 :=
  ⟨rfl, rfl⟩

end FeishuMcp
